import Mathlib

/-!
# libOPNMIDI: per-channel note table and physical-claim bookkeeping

A shallow embedding of the inline member functions of `OPNMIDIplay::MIDIchannel`,
`MIDIchannel::NoteInfo` and `MIDIchannel::activenoteiterator` declared in
`src/opnmidi_private.hpp`, together with the properties of them that the
specification states.

Modelling conventions

* Unsigned machine integers are `Nat`, signed ones are `Int`; a reduction modulo
  `2^w` is written out wherever the C++ code can wrap or truncate.
* A fixed-size C array `T a[N]` is a function `Fin N → T`.
* A pointer into such an array is the index of the element it designates, as a
  `Nat` (so that a pointer past the end can be expressed); a nullable pointer is an
  `Option Nat`, with `none` for `NULL`.
* Code that mutates `*this` returns the new state.
* A computation returns `Except Fault _`: dereferencing `NULL`, dereferencing a
  pointer outside its array, and a failing `assert` are faults.
* The `____padding` members carry no information and are left out, except in
  `OpnChannel::Location`, whose comparison is stated to ignore it.
-/

namespace OPNMIDI

/-- The ways in which the modelled code can leave defined behaviour. -/
inductive Fault where
  /-- An `assert(...)` whose condition is false. -/
  | assertion
  /-- An array element outside the bounds of the array is read or written. -/
  | outOfRange
  /-- The null pointer is dereferenced. -/
  | nullDeref
deriving DecidableEq, Repr

/-- Values of a C++ `double` member.  Finite values are kept as exact rationals; the
arithmetic the modelled functions perform on them (an `int` times `2^-20`) is exact in
IEEE-754 binary64, so no rounding has to be modelled. -/
inductive CDouble where
  | finite (q : ℚ)
  | posInf
  | negInf
  | nan
deriving DecidableEq

/-- Modelled from the spec: `opnInstData` is declared in `opnbank.h`, which is not among
the sources at hand; the specification calls it "the instrument register image written
to" a voice.  It is kept as an uninterpreted sequence of register bytes. -/
structure opnInstData where
  image : List Nat
deriving DecidableEq, Repr

/-- `MIDIchannel::NoteInfo::MaxNumPhysChans`. -/
def MaxNumPhysChans : Nat := 2

/-- `MIDIchannel::NoteInfo::MaxNumPhysItemCount = MaxNumPhysChans`. -/
def MaxNumPhysItemCount : Nat := MaxNumPhysChans

/-- `MIDIchannel::NoteInfo::Phys`: one physical claim. -/
structure Phys where
  /-- `uint16_t chip_chan`: destination chip channel. -/
  chip_chan : Nat
  /-- `opnInstData ains`. -/
  ains : opnInstData
deriving DecidableEq, Repr

/-- `MIDIchannel::NoteInfo`. -/
structure NoteInfo where
  /-- `uint8_t note`. -/
  note : Nat
  active : Bool
  /-- `uint8_t vol`: current pressure. -/
  vol : Nat
  /-- `uint8_t vibrato`. -/
  vibrato : Nat
  /-- `int16_t noteTone`. -/
  noteTone : Int
  currentTone : CDouble
  glideRate : CDouble
  /-- `size_t midiins`. -/
  midiins : Nat
  /-- `const opnInstMeta2 *ains`, as an address (`none` is `NULL`). -/
  ains : Option Nat
  /-- `Phys chip_channels[MaxNumPhysItemCount]`. -/
  chip_channels : Fin 2 → Phys
  /-- `unsigned chip_channels_count`. -/
  chip_channels_count : Nat

/-- `NoteInfo activenotes[128]`. -/
abbrev NoteTable := Fin 128 → NoteInfo

/-- `OPNMIDIplay::MIDIchannel`. -/
structure MIDIchannel where
  bank_lsb : Nat
  bank_msb : Nat
  patch : Nat
  volume : Nat
  expression : Nat
  panning : Nat
  vibrato : Nat
  aftertouch : Nat
  /-- `uint16_t portamento`. -/
  portamento : Nat
  sustain : Bool
  softPedal : Bool
  portamentoEnable : Bool
  /-- `int8_t portamentoSource`: note number or -1. -/
  portamentoSource : Int
  portamentoRate : CDouble
  /-- `uint8_t noteAftertouch[128]`. -/
  noteAftertouch : Fin 128 → Nat
  noteAfterTouchInUse : Bool
  /-- `int bend`. -/
  bend : Int
  bendsense : CDouble
  /-- `int bendsense_lsb`. -/
  bendsense_lsb : Int
  /-- `int bendsense_msb`. -/
  bendsense_msb : Int
  vibpos : CDouble
  vibspeed : CDouble
  vibdepth : CDouble
  /-- `int64_t vibdelay`. -/
  vibdelay : Int
  lastlrpn : Nat
  lastmrpn : Nat
  nrpn : Bool
  brightness : Nat
  is_xg_percussion : Bool
  /-- `unsigned gliding_note_count`. -/
  gliding_note_count : Nat
  activenotes : NoteTable

/-- An `activenoteiterator`: its private member `NoteInfo *ptr`, as an index into
`activenotes` (`none` is the null iterator). -/
abbrev activenoteiterator := Option Nat

/-- Reading `activenotes[p]`, or `*ptr` for a pointer `ptr = &activenotes[p]`. -/
def derefNote (tbl : NoteTable) (p : Nat) : Except Fault NoteInfo :=
  if h : p < 128 then .ok (tbl ⟨p, h⟩) else .error .outOfRange

/-- The statement `activenotes[p].active = b`. -/
def storeActive (tbl : NoteTable) (p : Nat) (b : Bool) : Except Fault NoteTable :=
  if h : p < 128 then
    .ok (Function.update tbl ⟨p, h⟩ { tbl ⟨p, h⟩ with active := b })
  else .error .outOfRange

/-- `MIDIchannel::activenotes_find(uint8_t note)`. -/
def activenotes_find (ch : MIDIchannel) (note : Nat) : Except Fault activenoteiterator :=
  if note < 128 then
    match derefNote ch.activenotes note with
    | .error e => .error e
    | .ok info => .ok (if info.active then some note else none)
  else .error .assertion

/-- `MIDIchannel::activenotes_insert(uint8_t note)`: the new channel state and the
returned `std::pair<activenoteiterator, bool>`. -/
def activenotes_insert (ch : MIDIchannel) (note : Nat) :
    Except Fault (MIDIchannel × (activenoteiterator × Bool)) :=
  if note < 128 then
    match derefNote ch.activenotes note with
    | .error e => .error e
    | .ok info =>
      let inserted := !info.active
      if inserted then
        match storeActive ch.activenotes note true with
        | .error e => .error e
        | .ok tbl => .ok ({ ch with activenotes := tbl }, (some note, inserted))
      else .ok (ch, (some note, inserted))
  else .error .assertion

/-- `MIDIchannel::activenotes_erase(activenoteiterator pos)`. -/
def activenotes_erase (ch : MIDIchannel) (pos : activenoteiterator) :
    Except Fault MIDIchannel :=
  match pos with
  | none => .ok ch
  | some p =>
    match storeActive ch.activenotes p false with
    | .error e => .error e
    | .ok tbl => .ok { ch with activenotes := tbl }

/-- Whether note number `i` is in range and its record is flagged active. -/
def isActive (tbl : NoteTable) (i : Nat) : Bool :=
  if h : i < 128 then (tbl ⟨i, h⟩).active else false

/-- The table invariant established by `activenotes_clear`: `activenotes[i].note == i`. -/
def NotesIndexed (tbl : NoteTable) : Prop :=
  ∀ i : Fin 128, (tbl i).note = i.val

/-- The loop of `activenoteiterator::operator++`,

    for(...; ptr && !ptr->active;)
        ptr = (ptr->note == 127) ? NULL : (ptr + 1);

entered with the given value of `ptr`.  The result is the value of `ptr` when the loop
is left, together with the number of times the loop body was executed. -/
def activenoteiterator.incLoop (tbl : NoteTable) :
    Option Nat → Except Fault (Option Nat × Nat)
  | none => .ok (none, 0)
  | some p =>
    if h : p < 128 then
      if (tbl ⟨p, h⟩).active then .ok (some p, 0)
      else
        match activenoteiterator.incLoop tbl
            (if (tbl ⟨p, h⟩).note = 127 then none else some (p + 1)) with
        | .error e => .error e
        | .ok (q, k) => .ok (q, k + 1)
    else .error .outOfRange
termination_by ptr => match ptr with
  | none => 0
  | some p => 129 - p
decreasing_by
  all_goals simp_wf
  by_cases h127 : (tbl ⟨p, h⟩).note = 127
  · rw [if_pos h127]
    show 0 < 129 - p
    omega
  · rw [if_neg h127]
    show 129 - (p + 1) < 129 - p
    omega

/-- `activenoteiterator::operator++()` (pre-increment), instrumented: the new value of
the iterator and the number of executions of the inner loop body. -/
def activenoteiterator.incCount (tbl : NoteTable) (it : activenoteiterator) :
    Except Fault (activenoteiterator × Nat) :=
  match it with
  | none => .error .nullDeref
  | some p =>
    match derefNote tbl p with
    | .error e => .error e
    | .ok info =>
      if info.note = 127 then .ok (none, 0)
      else activenoteiterator.incLoop tbl (some (p + 1))

/-- `activenoteiterator::operator++()`: the new value of the iterator. -/
def activenoteiterator.operator_inc (tbl : NoteTable) (it : activenoteiterator) :
    Except Fault activenoteiterator :=
  match activenoteiterator.incCount tbl it with
  | .error e => .error e
  | .ok r => .ok r.1

/-- `MIDIchannel::activenotes_begin()`. -/
def activenotes_begin (ch : MIDIchannel) : Except Fault activenoteiterator :=
  match derefNote ch.activenotes 0 with
  | .error e => .error e
  | .ok info =>
    if info.active then .ok (some 0)
    else activenoteiterator.operator_inc ch.activenotes (some 0)

/-- `MIDIchannel::activenotes_empty()`. -/
def activenotes_empty (ch : MIDIchannel) : Except Fault Bool :=
  match activenotes_begin ch with
  | .error e => .error e
  | .ok it => .ok it.isNone

/-- The client loop `for(it = ...; it; ++it)`, run from the iterator `it` with at most
`fuel` applications of `operator++`: the note-table indices of the iterators visited, in
the order of the visit.  Every visited iterator is incremented once, so the length of
the result is the number of increments performed; `none` means that the fuel ran out
before the null iterator was reached. -/
def iterateFrom (tbl : NoteTable) :
    Nat → activenoteiterator → Except Fault (Option (List Nat))
  | _, none => .ok (some [])
  | 0, some _ => .ok none
  | fuel + 1, some p =>
    match activenoteiterator.operator_inc tbl (some p) with
    | .error e => .error e
    | .ok next =>
      match iterateFrom tbl fuel next with
      | .error e => .error e
      | .ok none => .ok none
      | .ok (some rest) => .ok (some (p :: rest))

/-- The traversal `for(it = activenotes_begin(); it; ++it)` with at most `fuel`
increments. -/
def activenotes_iterate (ch : MIDIchannel) (fuel : Nat) :
    Except Fault (Option (List Nat)) :=
  match activenotes_begin ch with
  | .error e => .error e
  | .ok it => iterateFrom ch.activenotes fuel it

/-- Two's-complement reduction of an integer to the range of a 32-bit `int`. -/
def toInt32 (x : Int) : Int := (x + 2147483648) % 4294967296 - 2147483648

/-- `MIDIchannel::updateBendSensitivity()`.  The factor `1.0 / (128 * 8192)` is `2^-20`
and the product of an `int` by it is exact in binary64. -/
def updateBendSensitivity (ch : MIDIchannel) : MIDIchannel :=
  let cent : Int := toInt32 (ch.bendsense_msb * 128 + ch.bendsense_lsb)
  { ch with bendsense := .finite ((cent : ℚ) * (1 / (128 * 8192))) }

/-- `MIDIchannel::hasVibrato()`. -/
def hasVibrato (ch : MIDIchannel) : Bool :=
  decide (ch.vibrato > 0) || decide (ch.aftertouch > 0) || ch.noteAfterTouchInUse

/-- Reading `chip_channels[i]`. -/
def derefPhys (n : NoteInfo) (i : Nat) : Except Fault Phys :=
  if h : i < 2 then .ok (n.chip_channels ⟨i, h⟩) else .error .outOfRange

/-- The loop of `NoteInfo::phys_find`,

    for(unsigned i = ...; i < chip_channels_count && !ph; ++i)
        if(chip_channels[i].chip_chan == chip_chan)
            ph = &chip_channels[i];

entered with `ph == NULL` and the given value of `i`: the final value of `ph`. -/
def NoteInfo.phys_find_loop (n : NoteInfo) (chip_chan : Nat) (i : Nat) :
    Except Fault (Option Nat) :=
  if i < n.chip_channels_count then
    match derefPhys n i with
    | .error e => .error e
    | .ok ph =>
      if ph.chip_chan = chip_chan then .ok (some i)
      else NoteInfo.phys_find_loop n chip_chan (i + 1)
  else .ok none
termination_by n.chip_channels_count - i

/-- `NoteInfo::phys_find(unsigned chip_chan)`: the position in `chip_channels` of the
entry found, or `none` for `NULL`. -/
def NoteInfo.phys_find (n : NoteInfo) (chip_chan : Nat) : Except Fault (Option Nat) :=
  NoteInfo.phys_find_loop n chip_chan 0

/-- `NoteInfo::phys_find_or_create(unsigned chip_chan)`: the new record and the
returned pointer. -/
def NoteInfo.phys_find_or_create (n : NoteInfo) (chip_chan : Nat) :
    Except Fault (NoteInfo × Option Nat) :=
  match NoteInfo.phys_find n chip_chan with
  | .error e => .error e
  | .ok (some i) => .ok (n, some i)
  | .ok none =>
    if n.chip_channels_count < MaxNumPhysItemCount then
      if h : n.chip_channels_count < 2 then
        .ok ({ n with
                chip_channels := Function.update n.chip_channels ⟨n.chip_channels_count, h⟩
                  { n.chip_channels ⟨n.chip_channels_count, h⟩ with
                    chip_chan := chip_chan % 65536 }
                chip_channels_count := (n.chip_channels_count + 1) % 4294967296 },
              some n.chip_channels_count)
      else .error .outOfRange
    else .ok (n, none)

/-- `NoteInfo::phys_ensure_find_or_create(unsigned chip_chan)`. -/
def NoteInfo.phys_ensure_find_or_create (n : NoteInfo) (chip_chan : Nat) :
    Except Fault (NoteInfo × Nat) :=
  match NoteInfo.phys_find_or_create n chip_chan with
  | .error e => .error e
  | .ok (_, none) => .error .assertion
  | .ok (n1, some i) => .ok (n1, i)

/-- The loop of `NoteInfo::phys_erase_at`,

    for(intptr_t i = ...; i < static_cast<intptr_t>(chip_channels_count); ++i)
        chip_channels[i - 1] = chip_channels[i];

entered with the given value of `i` (which is at least 1): the resulting array. -/
def NoteInfo.phys_erase_loop (count : Nat) (cc : Fin 2 → Phys) (i : Nat) :
    Except Fault (Fin 2 → Phys) :=
  if i < count then
    if h : i < 2 then
      if h1 : i - 1 < 2 then
        NoteInfo.phys_erase_loop count (Function.update cc ⟨i - 1, h1⟩ (cc ⟨i, h⟩)) (i + 1)
      else .error .outOfRange
    else .error .outOfRange
  else .ok cc
termination_by count - i

/-- `NoteInfo::phys_erase_at(const Phys *ph)` for `ph = &chip_channels[pos]`. -/
def NoteInfo.phys_erase_at (n : NoteInfo) (pos : Nat) : Except Fault NoteInfo :=
  if pos < n.chip_channels_count then
    match NoteInfo.phys_erase_loop n.chip_channels_count n.chip_channels (pos + 1) with
    | .error e => .error e
    | .ok cc =>
      .ok { n with
            chip_channels := cc
            chip_channels_count := (n.chip_channels_count + 4294967295) % 4294967296 }
  else .error .assertion

/-- `NoteInfo::phys_erase(unsigned chip_chan)`. -/
def NoteInfo.phys_erase (n : NoteInfo) (chip_chan : Nat) : Except Fault NoteInfo :=
  match NoteInfo.phys_find n chip_chan with
  | .error e => .error e
  | .ok none => .ok n
  | .ok (some pos) => NoteInfo.phys_erase_at n pos

/-- The operations of `NoteInfo` that change the list of physical claims. -/
inductive PhysOp where
  | find_or_create (chip_chan : Nat)
  | ensure_find_or_create (chip_chan : Nat)
  | erase (chip_chan : Nat)
  | erase_at (pos : Nat)
deriving DecidableEq, Repr

/-- The record after one operation on the list of physical claims. -/
def PhysOp.apply (n : NoteInfo) : PhysOp → Except Fault NoteInfo
  | .find_or_create c =>
    match NoteInfo.phys_find_or_create n c with
    | .error e => .error e
    | .ok r => .ok r.1
  | .ensure_find_or_create c =>
    match NoteInfo.phys_ensure_find_or_create n c with
    | .error e => .error e
    | .ok r => .ok r.1
  | .erase c => NoteInfo.phys_erase n c
  | .erase_at pos => NoteInfo.phys_erase_at n pos

/-- The record after a sequence of operations on the list of physical claims, applied
from left to right; the run stops at the first fault. -/
def PhysOp.run (n : NoteInfo) : List PhysOp → Except Fault NoteInfo
  | [] => .ok n
  | op :: ops =>
    match PhysOp.apply n op with
    | .error e => .error e
    | .ok n1 => PhysOp.run n1 ops

/-- Whether one of the first `chip_channels_count` claims of the record names the
voice `chip_chan`. -/
def NoteInfo.claims (n : NoteInfo) (chip_chan : Nat) : Prop :=
  ∃ i : Fin 2, i.val < n.chip_channels_count ∧ (n.chip_channels i).chip_chan = chip_chan

/-- `OpnChannel::LocationData::Sustain_None`. -/
def Sustain_None : Nat := 0x00

/-- `OpnChannel::LocationData::Sustain_Pedal`. -/
def Sustain_Pedal : Nat := 0x01

/-- `OpnChannel::LocationData::Sustain_Sostenuto`. -/
def Sustain_Sostenuto : Nat := 0x02

/-- `OpnChannel::LocationData::Sustain_ANY`. -/
def Sustain_ANY : Nat := Sustain_Pedal ||| Sustain_Sostenuto

/-- The value stored by `sustained = s | mask` into the `uint8_t` member `sustained`. -/
def sustainedSet (s mask : Nat) : Nat := (s ||| mask) % 256

/-- Bitwise complement `~x` of a non-negative `int`, as the 32-bit two's-complement
bit pattern of the result. -/
def bitNot32 (x : Nat) : Nat := 4294967295 ^^^ (x % 4294967296)

/-- The value stored by `sustained = s & ~mask` into the `uint8_t` member `sustained`:
the conversion of the result to `uint8_t` keeps the low eight bits. -/
def sustainedClear (s mask : Nat) : Nat := (s &&& bitNot32 mask) % 256

/-- A note record with the given note number, active flag and physical claims, and
with every other member zero. -/
def NoteInfo.sample (note : Nat) (active : Bool) (cc : Fin 2 → Phys) (count : Nat) :
    NoteInfo :=
  { note := note, active := active, vol := 0, vibrato := 0, noteTone := 0,
    currentTone := .finite 0, glideRate := .finite 0, midiins := 0, ains := none,
    chip_channels := cc, chip_channels_count := count }

/-- A claim on the voice `c` with an empty register image. -/
def Phys.sample (c : Nat) : Phys := { chip_chan := c, ains := { image := [] } }

/-- A channel whose table satisfies `activenotes[i].note == i`, in which exactly the
notes selected by `act` are active, with the given bend-sensitivity bytes and vibrato
controller value. -/
def MIDIchannel.sample (act : Nat → Bool) (msb lsb : Int) (vib : Nat) : MIDIchannel :=
  { bank_lsb := 0, bank_msb := 0, patch := 0, volume := 100, expression := 127,
    panning := 0xC0, vibrato := vib, aftertouch := 0, portamento := 0, sustain := false,
    softPedal := false, portamentoEnable := false, portamentoSource := -1,
    portamentoRate := .posInf, noteAftertouch := fun _ => 0,
    noteAfterTouchInUse := false, bend := 0, bendsense := .finite 0,
    bendsense_lsb := lsb, bendsense_msb := msb, vibpos := .finite 0,
    vibspeed := .finite 0, vibdepth := .finite 0, vibdelay := 0, lastlrpn := 0,
    lastmrpn := 0, nrpn := false, brightness := 127, is_xg_percussion := false,
    gliding_note_count := 0,
    activenotes := fun i => NoteInfo.sample i.val (act i.val) (fun _ => Phys.sample 0) 0 }

/-- The statements `activenotes[p].note = note; activenotes[p].active = false;`. -/
def storeCleared (tbl : NoteTable) (p : Nat) (note : Nat) : Except Fault NoteTable :=
  if h : p < 128 then
    .ok (Function.update tbl ⟨p, h⟩ { tbl ⟨p, h⟩ with note := note, active := false })
  else .error .outOfRange

/-- The loop of `MIDIchannel::activenotes_clear`,

    for(uint8_t i = ...; i < 128; ++i) {
        activenotes[i].note = i;
        activenotes[i].active = false;
    }

entered with the given value of the 8-bit counter `i`: the resulting table and the
number of times the loop body was executed. -/
def activenotes_clear_loop (tbl : NoteTable) (i : Nat) : Except Fault (NoteTable × Nat) :=
  if i < 128 then
    match storeCleared tbl i i with
    | .error e => .error e
    | .ok tbl1 =>
      match activenotes_clear_loop tbl1 ((i + 1) % 256) with
      | .error e => .error e
      | .ok (tbl2, k) => .ok (tbl2, k + 1)
  else .ok (tbl, 0)
termination_by 128 - i
decreasing_by
  all_goals simp_wf
  omega

/-- `MIDIchannel::activenotes_clear()`, instrumented: the new channel state and the
number of iterations of the loop. -/
def activenotes_clear_count (ch : MIDIchannel) : Except Fault (MIDIchannel × Nat) :=
  match activenotes_clear_loop ch.activenotes 0 with
  | .error e => .error e
  | .ok (tbl, k) => .ok ({ ch with activenotes := tbl }, k)

/-- `MIDIchannel::activenotes_clear()`. -/
def activenotes_clear (ch : MIDIchannel) : Except Fault MIDIchannel :=
  match activenotes_clear_count ch with
  | .error e => .error e
  | .ok r => .ok r.1

/-- `OPN_PANNING_LEFT`. -/
def OPN_PANNING_LEFT : Nat := 0x80

/-- `OPN_PANNING_RIGHT`. -/
def OPN_PANNING_RIGHT : Nat := 0x40

/-- `OPN_PANNING_BOTH`. -/
def OPN_PANNING_BOTH : Nat := 0xC0

/-- The binary64 value of the constant expression `2 * 3.141592653 * 5.0`
(hexadecimal `0x1.f6a7a293be386p+4`). -/
def vibspeedDefault : ℚ := 4421398594187715 / 140737488355328

/-- The binary64 value of the constant expression `0.5 / 127`
(hexadecimal `0x1.0204081020408p-8`). -/
def vibdepthDefault : ℚ := 567382630219905 / 144115188075855872

/-- `MIDIchannel::resetAllControllers()`.  `HUGE_VAL` is positive infinity. -/
def resetAllControllers (ch : MIDIchannel) : MIDIchannel :=
  let ch1 := { ch with bend := 0 }
  let ch2 := { ch1 with bendsense_msb := 2 }
  let ch3 := { ch2 with bendsense_lsb := 0 }
  let ch4 := updateBendSensitivity ch3
  { ch4 with
    volume := 100
    expression := 127
    sustain := false
    softPedal := false
    vibrato := 0
    aftertouch := 0
    noteAftertouch := fun _ => 0
    noteAfterTouchInUse := false
    vibspeed := .finite vibspeedDefault
    vibdepth := .finite vibdepthDefault
    vibdelay := 0
    panning := OPN_PANNING_BOTH
    portamento := 0
    portamentoEnable := false
    portamentoSource := -1
    portamentoRate := .posInf
    brightness := 127 }

/-- `MIDIchannel::reset()`. -/
def reset (ch : MIDIchannel) : MIDIchannel :=
  let ch1 := resetAllControllers ch
  { ch1 with
    patch := 0
    vibpos := .finite 0
    bank_lsb := 0
    bank_msb := 0
    lastlrpn := 0
    lastmrpn := 0
    nrpn := false
    is_xg_percussion := false }

/-- The constructor `MIDIchannel::MIDIchannel()`, run on the storage `raw` of the new
object, whose members have indeterminate values before the constructor body runs. -/
def MIDIchannel.construct (raw : MIDIchannel) : Except Fault MIDIchannel :=
  match activenotes_clear raw with
  | .error e => .error e
  | .ok ch1 => .ok (reset { ch1 with gliding_note_count := 0 })

/-- The cache-consistency predicate of the bend sensitivity: `bendsense` is the
rational number `(bendsense_msb*128 + bendsense_lsb) / (128*8192)`. -/
def BendCacheConsistent (ch : MIDIchannel) : Prop :=
  ch.bendsense =
    .finite (((ch.bendsense_msb : ℚ) * 128 + (ch.bendsense_lsb : ℚ)) / (128 * 8192))

/-- The integer `x` is a value of a 32-bit `int`. -/
def InIntRange (x : Int) : Prop := -2147483648 ≤ x ∧ x ≤ 2147483647

/-- The `int` expression `bendsense_msb * 128 + bendsense_lsb` of
`updateBendSensitivity` is evaluated without overflow: the two operands are `int`
values, and neither the product `bendsense_msb * 128` nor the sum leaves the range of
`int`. -/
def BendCentInRange (ch : MIDIchannel) : Prop :=
  InIntRange ch.bendsense_msb ∧ InIntRange ch.bendsense_lsb ∧
  InIntRange (ch.bendsense_msb * 128) ∧
  InIntRange (ch.bendsense_msb * 128 + ch.bendsense_lsb)

/-- The physical claims of a note record: the first `chip_channels_count` entries of
`chip_channels`, in array order. -/
def NoteInfo.claimList (n : NoteInfo) : List Phys :=
  (List.ofFn n.chip_channels).take n.chip_channels_count

/-- The first `chip_channels_count` claims name pairwise different voices. -/
def NoteInfo.DistinctVoices (n : NoteInfo) : Prop :=
  ∀ i j : Fin 2, i.val < n.chip_channels_count → j.val < n.chip_channels_count →
    (n.chip_channels i).chip_chan = (n.chip_channels j).chip_chan → i = j

/-- `INT16_MIN`, defined as `(-0x7fff - 1)`. -/
def INT16_MIN : Int := -0x7fff - 1

/-- `INT16_MAX`. -/
def INT16_MAX : Int := 0x7fff

/-- `opn2_cvtS16(int32_t x)`. -/
def opn2_cvtS16 (x : Int) : Int :=
  let x1 := if x < INT16_MIN then INT16_MIN else x
  let x2 := if x1 > INT16_MAX then INT16_MAX else x1
  x2

/-- A call of the emulator interface `gx/gx_ym2612.h` on the chip `m_chip`.  The
arguments of `YM2612GXWrite` are recorded as the values of the argument expressions at
the call. -/
inductive ChipCall where
  /-- `YM2612GXWrite(m_chip, a, v)`. -/
  | write (a v : Nat)
  /-- `YM2612GXResetChip(m_chip)`. -/
  | resetChip
  /-- `YM2612GXPreGenerate(m_chip)`. -/
  | preGenerate
  /-- `YM2612GXPostGenerate(m_chip, count)`. -/
  | postGenerate (count : Nat)
  /-- `YM2612GXGenerateOneNative(m_chip, frame)`. -/
  | generateOneNative
deriving DecidableEq, Repr

/-- `GXOPN2`: the calls made so far on `m_chip`, oldest first, and `m_framecount`. -/
structure GXOPN2 where
  calls : List ChipCall
  m_framecount : Nat
deriving DecidableEq, Repr

/-- `GXOPN2::writeReg(uint32_t port, uint16_t addr, uint8_t data)`.  The expressions
`0 + port * 2` and `1 + port * 2` are evaluated in `uint32_t`. -/
def GXOPN2.writeReg (s : GXOPN2) (port addr data : Nat) : GXOPN2 :=
  let s1 : GXOPN2 :=
    { s with
      calls := s.calls ++ [ChipCall.write ((0 + port * 2 % 4294967296) % 4294967296) addr] }
  { s1 with
    calls := s1.calls ++ [ChipCall.write ((1 + port * 2 % 4294967296) % 4294967296) data] }

/-- `OpnChannel::Location`: the back-reference `{MidCh, note}` of a voice user and
the member `char ____padding[1]`, kept as the value of its one byte. -/
structure OpnChannel.Location where
  /-- `uint16_t MidCh`. -/
  MidCh : Nat
  /-- `uint8_t note`. -/
  note : Nat
  /-- `char ____padding[1]`. -/
  ____padding : Nat
deriving DecidableEq, Repr

/-- `OpnChannel::Location::operator==(const Location &l)`. -/
def OpnChannel.Location.operator_eq (a l : OpnChannel.Location) : Bool :=
  decide (a.MidCh = l.MidCh) && decide (a.note = l.note)

/-- `OpnChannel::Location::operator!=(const Location &l)`. -/
def OpnChannel.Location.operator_ne (a l : OpnChannel.Location) : Bool :=
  !(OpnChannel.Location.operator_eq a l)

/-- The iterator `r` designates the lowest active note at or above `p`; it is null
when there is no such note. -/
def LowestActiveFrom (tbl : NoteTable) (p : Nat) (r : activenoteiterator) : Prop :=
  match r with
  | some j => p ≤ j ∧ isActive tbl j = true ∧ ∀ k, p ≤ k → k < j → isActive tbl k = false
  | none => ∀ k, p ≤ k → isActive tbl k = false

/-- A non-null iterator designates an element of `activenotes`. -/
def InTable (it : activenoteiterator) : Prop :=
  ∀ p, it = some p → p < 128

/-- The pointer `r` designates the first claim at or after position `i`, among the
first `chip_channels_count` claims, that names the voice `chip_chan`; it is null when
there is no such claim. -/
def NoteInfo.FirstClaimFrom (n : NoteInfo) (chip_chan : Nat) (i : Nat) (r : Option Nat) :
    Prop :=
  match r with
  | some j =>
    i ≤ j ∧ j < n.chip_channels_count ∧
    (∃ h : j < 2, (n.chip_channels ⟨j, h⟩).chip_chan = chip_chan) ∧
    ∀ k : Fin 2, i ≤ k.val → k.val < j → (n.chip_channels k).chip_chan ≠ chip_chan
  | none =>
    ∀ k : Fin 2, i ≤ k.val → k.val < n.chip_channels_count →
      (n.chip_channels k).chip_chan ≠ chip_chan

/-- The operation is one of those that neither assert nor take a position. -/
def PhysOp.isTotal : PhysOp → Bool
  | .find_or_create _ => true
  | .erase _ => true
  | _ => false

/-- The active note numbers from `p` upwards, in increasing order. -/
def activeNotesFrom (tbl : NoteTable) (p : Nat) : List Nat :=
  (List.range' p (128 - p)).filter (isActive tbl)

/-! ## The note table: insertion, lookup, removal -/

theorem derefNote_lt (tbl : NoteTable) (p : Nat) (h : p < 128) :
    derefNote tbl p = .ok (tbl ⟨p, h⟩) := by
  simp [derefNote, h]

theorem storeActive_lt (tbl : NoteTable) (p : Nat) (b : Bool) (h : p < 128) :
    storeActive tbl p b =
      .ok (Function.update tbl ⟨p, h⟩ { tbl ⟨p, h⟩ with active := b }) := by
  simp [storeActive, h]

theorem activenotes_find_lt (ch : MIDIchannel) (n : Nat) (h : n < 128) :
    activenotes_find ch n =
      .ok (if (ch.activenotes ⟨n, h⟩).active then some n else none) := by
  simp [activenotes_find, h, derefNote_lt]

theorem activenotes_insert_lt (ch : MIDIchannel) (n : Nat) (h : n < 128) :
    activenotes_insert ch n =
      .ok (if (ch.activenotes ⟨n, h⟩).active then ch
           else { ch with
                  activenotes := Function.update ch.activenotes ⟨n, h⟩
                    { ch.activenotes ⟨n, h⟩ with active := true } },
           (some n, !(ch.activenotes ⟨n, h⟩).active)) := by
  cases hact : (ch.activenotes ⟨n, h⟩).active <;>
    simp [activenotes_insert, h, derefNote_lt, storeActive_lt, hact]

/-- C1: for every channel state and every note `n < 128`, `activenotes_insert(n)`
returns the iterator at index `n` and a flag that is true exactly when note `n` was not
active before; afterwards note `n` is active and the active flag of every other note is
as before; a second `activenotes_insert(n)` returns false and leaves the state as it
is. -/
theorem activenotes_insert_spec (ch : MIDIchannel) (n : Nat) (h : n < 128) :
    ∃ ch1 : MIDIchannel,
      activenotes_insert ch n = .ok (ch1, (some n, !(ch.activenotes ⟨n, h⟩).active)) ∧
      (ch1.activenotes ⟨n, h⟩).active = true ∧
      (∀ m : Fin 128, m.val ≠ n →
        (ch1.activenotes m).active = (ch.activenotes m).active) ∧
      activenotes_insert ch1 n = .ok (ch1, (some n, false)) := by
  rw [activenotes_insert_lt ch n h]
  cases hact : (ch.activenotes ⟨n, h⟩).active
  · refine ⟨_, rfl, ?_, ?_, ?_⟩
    · simp
    · intro m hm
      have hne : m ≠ ⟨n, h⟩ := fun e => hm (by rw [e])
      simp [Function.update_noteq hne]
    · rw [activenotes_insert_lt _ n h]
      simp
  · refine ⟨ch, by simp, hact, fun _ _ => rfl, ?_⟩
    rw [activenotes_insert_lt ch n h]
    simp [hact]

/-- The hypothesis of `activenotes_insert_spec` is satisfiable: note 60 of a channel
without active notes. -/
theorem activenotes_insert_spec_witness :
    60 < 128 ∧
    ∃ ch1 : MIDIchannel,
      activenotes_insert (MIDIchannel.sample (fun _ => false) 2 0 0) 60
        = .ok (ch1, (some 60, true)) ∧
      (ch1.activenotes ⟨60, by decide⟩).active = true ∧
      (∀ m : Fin 128, m.val ≠ 60 → (ch1.activenotes m).active = false) ∧
      activenotes_insert ch1 60 = .ok (ch1, (some 60, false)) :=
  ⟨by decide, activenotes_insert_spec (MIDIchannel.sample (fun _ => false) 2 0 0) 60 (by decide)⟩

theorem activenotes_erase_lt (ch : MIDIchannel) (p : Nat) (h : p < 128) :
    activenotes_erase ch (some p) =
      .ok { ch with
            activenotes := Function.update ch.activenotes ⟨p, h⟩
              { ch.activenotes ⟨p, h⟩ with active := false } } := by
  simp [activenotes_erase, storeActive_lt, h]

theorem activenotes_find_ge (ch : MIDIchannel) (n : Nat) (h : ¬ n < 128) :
    activenotes_find ch n = .error .assertion := by
  simp [activenotes_find, h]

/-- C7: on a channel with `activenotes[i].note == i` and for `n < 128`,
`activenotes_find(n)` is non-null exactly when note `n` is active and then designates
the record whose note member is `n`; after `activenotes_insert(n)` it is the iterator
that the insertion returned; after `activenotes_erase(activenotes_find(n))` it is null
while `activenotes_find(m)` is as before for every `m != n`; and erasing the null
iterator changes nothing. -/
theorem activenotes_find_insert_erase (ch : MIDIchannel)
    (hidx : NotesIndexed ch.activenotes) (n : Nat) (h : n < 128) :
    (∃ it, activenotes_find ch n = .ok it ∧
      (it ≠ none ↔ (ch.activenotes ⟨n, h⟩).active = true) ∧
      ∀ p, it = some p →
        ∃ info, derefNote ch.activenotes p = .ok info ∧ info.note = n ∧
          info = ch.activenotes ⟨n, h⟩) ∧
    (∃ ch1 r, activenotes_insert ch n = .ok (ch1, r) ∧
      activenotes_find ch1 n = .ok r.1 ∧ r.1 = some n) ∧
    (∃ it ch2, activenotes_find ch n = .ok it ∧ activenotes_erase ch it = .ok ch2 ∧
      activenotes_find ch2 n = .ok none ∧
      ∀ m, m ≠ n → activenotes_find ch2 m = activenotes_find ch m) ∧
    activenotes_erase ch none = .ok ch := by
  refine ⟨?_, ?_, ?_, rfl⟩
  · refine ⟨_, activenotes_find_lt ch n h, ?_, ?_⟩
    · cases (ch.activenotes ⟨n, h⟩).active <;> simp
    · intro p hp
      cases hact : (ch.activenotes ⟨n, h⟩).active
      · simp [hact] at hp
      · simp only [hact, if_true, Option.some.injEq] at hp
        subst hp
        exact ⟨_, derefNote_lt _ n h, hidx ⟨n, h⟩, rfl⟩
  · refine ⟨_, _, activenotes_insert_lt ch n h, ?_, rfl⟩
    rw [activenotes_find_lt _ n h]
    cases hact : (ch.activenotes ⟨n, h⟩).active <;> simp [hact]
  · rw [activenotes_find_lt ch n h]
    cases hact : (ch.activenotes ⟨n, h⟩).active
    · refine ⟨none, ch, by simp, rfl, ?_, fun _ _ => rfl⟩
      rw [activenotes_find_lt ch n h, hact]
      rfl
    · refine ⟨some n, _, by simp, activenotes_erase_lt ch n h, ?_, ?_⟩
      · rw [activenotes_find_lt _ n h]
        simp
      · intro m hm
        by_cases hm128 : m < 128
        · rw [activenotes_find_lt _ m hm128, activenotes_find_lt _ m hm128]
          have hne : (⟨m, hm128⟩ : Fin 128) ≠ ⟨n, h⟩ := fun e => hm (by simpa using e)
          simp [Function.update_noteq hne]
        · rw [activenotes_find_ge _ m hm128, activenotes_find_ge _ m hm128]

/-- The hypotheses of `activenotes_find_insert_erase` are satisfiable: note 64 of a
channel in which the notes 60 and 64 are active. -/
theorem activenotes_find_insert_erase_witness :
    NotesIndexed (MIDIchannel.sample (fun i => i == 60 || i == 64) 2 0 0).activenotes ∧
    64 < 128 ∧
    ∃ it ch2,
      activenotes_find (MIDIchannel.sample (fun i => i == 60 || i == 64) 2 0 0) 64
        = .ok it ∧
      activenotes_erase (MIDIchannel.sample (fun i => i == 60 || i == 64) 2 0 0) it
        = .ok ch2 ∧
      activenotes_find ch2 64 = .ok none ∧
      ∀ m, m ≠ 64 → activenotes_find ch2 m
        = activenotes_find (MIDIchannel.sample (fun i => i == 60 || i == 64) 2 0 0) m :=
  ⟨fun _ => rfl, by decide,
    (activenotes_find_insert_erase (MIDIchannel.sample (fun i => i == 60 || i == 64) 2 0 0)
      (fun _ => rfl) 64 (by decide)).2.2.1⟩

/-! ## Cached pitch-bend sensitivity, vibrato gate, sustain categories -/

theorem toInt32_of_mem (x : Int) (h0 : -2147483648 ≤ x) (h1 : x < 2147483648) :
    toInt32 x = x := by
  unfold toInt32
  omega

/-- C3: for `bendsense_msb` and `bendsense_lsb` in 0..127, `updateBendSensitivity()`
sets `bendsense` to the rational number `(msb*128 + lsb) / (128*8192)` and changes no
other member; for `msb = 2`, `lsb = 0` the value is `1/4096`, which makes a bend of 8192
units exactly 2 semitones. -/
theorem updateBendSensitivity_spec (ch : MIDIchannel)
    (hm0 : 0 ≤ ch.bendsense_msb) (hm1 : ch.bendsense_msb ≤ 127)
    (hl0 : 0 ≤ ch.bendsense_lsb) (hl1 : ch.bendsense_lsb ≤ 127) :
    updateBendSensitivity ch =
      { ch with
        bendsense := .finite
          (((ch.bendsense_msb : ℚ) * 128 + (ch.bendsense_lsb : ℚ)) / (128 * 8192)) } ∧
    (ch.bendsense_msb = 2 → ch.bendsense_lsb = 0 →
      ∃ q : ℚ, (updateBendSensitivity ch).bendsense = .finite q ∧
        q = 1 / 4096 ∧ 8192 * q = 2) := by
  have hcent : toInt32 (ch.bendsense_msb * 128 + ch.bendsense_lsb)
      = ch.bendsense_msb * 128 + ch.bendsense_lsb :=
    toInt32_of_mem _ (by omega) (by omega)
  have hval : updateBendSensitivity ch =
      { ch with
        bendsense := .finite
          (((ch.bendsense_msb : ℚ) * 128 + (ch.bendsense_lsb : ℚ)) / (128 * 8192)) } := by
    unfold updateBendSensitivity
    simp only [hcent]
    congr 2
    push_cast
    ring
  refine ⟨hval, fun h2 h0 => ⟨_, by rw [hval], ?_, ?_⟩⟩ <;>
    · rw [h2, h0]
      norm_num

/-- The hypotheses of `updateBendSensitivity_spec` are satisfiable: the sensitivity
bytes 2 and 0 that `resetAllControllers` stores. -/
theorem updateBendSensitivity_spec_witness :
    ((0 : Int) ≤ 2 ∧ (2 : Int) ≤ 127 ∧ (0 : Int) ≤ 0 ∧ (0 : Int) ≤ 127) ∧
    ∃ q : ℚ,
      (updateBendSensitivity (MIDIchannel.sample (fun _ => false) 2 0 0)).bendsense
        = .finite q ∧ q = 1 / 4096 ∧ 8192 * q = 2 :=
  ⟨by decide,
    (updateBendSensitivity_spec (MIDIchannel.sample (fun _ => false) 2 0 0)
      (by decide) (by decide) (by decide) (by decide)).2 rfl rfl⟩

/-- C6: `hasVibrato()` is true if and only if the vibrato controller value is greater
than 0, or the channel aftertouch value is greater than 0, or `noteAfterTouchInUse` is
set. -/
theorem hasVibrato_iff (ch : MIDIchannel) :
    hasVibrato ch = true ↔
      (ch.vibrato > 0 ∨ ch.aftertouch > 0 ∨ ch.noteAfterTouchInUse = true) := by
  simp [hasVibrato, or_assoc]

set_option maxRecDepth 200000 in
/-- C8: the sustain categories are an independent two-bit mask.  `Sustain_None` is 0,
`Sustain_Pedal` and `Sustain_Sostenuto` are different single bits with empty
intersection, `Sustain_ANY` is their union; for every 8-bit value `s`, setting or
clearing one of the two bits really sets or clears it and leaves the other bit of `s`
as it is; and the four categories are pairwise different. -/
theorem sustain_mask_independent :
    Sustain_None = 0 ∧
    (∃ k, Sustain_Pedal = 2 ^ k) ∧ (∃ k, Sustain_Sostenuto = 2 ^ k) ∧
    Sustain_Pedal ≠ Sustain_Sostenuto ∧
    Sustain_Pedal &&& Sustain_Sostenuto = 0 ∧
    Sustain_ANY = Sustain_Pedal ||| Sustain_Sostenuto ∧
    (∀ s : Fin 256,
      sustainedSet s Sustain_Pedal &&& Sustain_Pedal = Sustain_Pedal ∧
      sustainedSet s Sustain_Pedal &&& Sustain_Sostenuto = s &&& Sustain_Sostenuto ∧
      sustainedClear s Sustain_Pedal &&& Sustain_Pedal = 0 ∧
      sustainedClear s Sustain_Pedal &&& Sustain_Sostenuto = s &&& Sustain_Sostenuto ∧
      sustainedSet s Sustain_Sostenuto &&& Sustain_Sostenuto = Sustain_Sostenuto ∧
      sustainedSet s Sustain_Sostenuto &&& Sustain_Pedal = s &&& Sustain_Pedal ∧
      sustainedClear s Sustain_Sostenuto &&& Sustain_Sostenuto = 0 ∧
      sustainedClear s Sustain_Sostenuto &&& Sustain_Pedal = s &&& Sustain_Pedal) ∧
    [Sustain_None, Sustain_Pedal, Sustain_Sostenuto, Sustain_ANY].Nodup := by
  refine ⟨rfl, ⟨0, rfl⟩, ⟨1, rfl⟩, by decide, by decide, rfl, ?_, by decide⟩
  decide

/-! ## Physical claims of a note -/

theorem derefPhys_lt (n : NoteInfo) (i : Nat) (h : i < 2) :
    derefPhys n i = .ok (n.chip_channels ⟨i, h⟩) := by
  simp [derefPhys, h]

theorem phys_find_loop_spec (n : NoteInfo) (c : Nat) (hn : n.chip_channels_count ≤ 2) :
    ∀ d i, n.chip_channels_count - i = d →
      ∃ r, NoteInfo.phys_find_loop n c i = .ok r ∧ NoteInfo.FirstClaimFrom n c i r := by
  intro d
  induction d with
  | zero =>
    intro i hd
    rw [NoteInfo.phys_find_loop, if_neg (by omega)]
    exact ⟨none, rfl, fun k h1 h2 => absurd h2 (by omega)⟩
  | succ d ih =>
    intro i hd
    have hi : i < n.chip_channels_count := by omega
    have hi2 : i < 2 := by omega
    rw [NoteInfo.phys_find_loop, if_pos hi, derefPhys_lt n i hi2]
    by_cases heq : (n.chip_channels ⟨i, hi2⟩).chip_chan = c
    · simp only [heq, if_true]
      exact ⟨some i, rfl, le_refl i, hi, ⟨hi2, heq⟩, fun k h1 h2 => absurd h2 (by omega)⟩
    · simp only [heq, if_false]
      obtain ⟨r, hr, hspec⟩ := ih (i + 1) (by omega)
      refine ⟨r, hr, ?_⟩
      have hfirst : ∀ k : Fin 2, i ≤ k.val → k.val < i + 1 →
          (n.chip_channels k).chip_chan ≠ c := by
        intro k h1 h2
        have hk : k = ⟨i, hi2⟩ := Fin.ext (by simp; omega)
        rw [hk]
        exact heq
      cases r with
      | none =>
        intro k h1 h2
        by_cases hk : k.val < i + 1
        · exact hfirst k h1 hk
        · exact hspec k (by omega) h2
      | some j =>
        obtain ⟨h1, h2, h3, h4⟩ := hspec
        refine ⟨by omega, h2, h3, ?_⟩
        intro k hk1 hk2
        by_cases hk : k.val < i + 1
        · exact hfirst k hk1 hk
        · exact h4 k (by omega) hk2

theorem phys_find_spec (n : NoteInfo) (c : Nat) (hn : n.chip_channels_count ≤ 2) :
    ∃ r, NoteInfo.phys_find n c = .ok r ∧ NoteInfo.FirstClaimFrom n c 0 r :=
  phys_find_loop_spec n c hn _ 0 rfl

theorem phys_find_none_iff (n : NoteInfo) (c : Nat) (r : Option Nat)
    (hr : NoteInfo.FirstClaimFrom n c 0 r) : r = none ↔ ¬ n.claims c := by
  cases r with
  | none =>
    simp only [true_iff]
    rintro ⟨k, hk, hc⟩
    exact hr k (Nat.zero_le _) hk hc
  | some j =>
    obtain ⟨-, h2, ⟨h3, h3c⟩, -⟩ := hr
    simp only [reduceCtorEq, false_iff, not_not]
    exact ⟨⟨j, h3⟩, h2, h3c⟩

theorem phys_find_or_create_spec (n : NoteInfo) (c : Nat)
    (hn : n.chip_channels_count ≤ 2) :
    ∃ n1 r, NoteInfo.phys_find_or_create n c = .ok (n1, r) ∧
      n1.chip_channels_count ≤ 2 ∧
      (r = none ↔ (¬ n.claims c ∧ n.chip_channels_count = 2)) ∧
      (r = none → n1 = n) := by
  obtain ⟨r0, hfind, hspec⟩ := phys_find_spec n c hn
  have hiff := phys_find_none_iff n c r0 hspec
  unfold NoteInfo.phys_find_or_create
  rw [hfind]
  cases r0 with
  | some i =>
    have hcl : n.claims c := by
      by_contra hcon
      exact absurd (hiff.mpr hcon) (by simp)
    exact ⟨n, some i, rfl, hn, by simp [hcl], by simp⟩
  | none =>
    have hncl : ¬ n.claims c := hiff.mp rfl
    by_cases hlt : n.chip_channels_count < 2
    · simp only [MaxNumPhysItemCount, MaxNumPhysChans, hlt, if_true, dif_pos]
      refine ⟨_, _, rfl, ?_, ?_, ?_⟩
      · show (n.chip_channels_count + 1) % 4294967296 ≤ 2
        omega
      · simp
        omega
      · simp
    · simp only [MaxNumPhysItemCount, MaxNumPhysChans, hlt, if_false]
      exact ⟨n, none, rfl, hn, by simp [hncl]; omega, fun _ => rfl⟩

theorem phys_erase_loop_ok (count : Nat) (hc : count ≤ 2) :
    ∀ d i (cc : Fin 2 → Phys), count - i = d →
      ∃ cc1, NoteInfo.phys_erase_loop count cc i = .ok cc1 := by
  intro d
  induction d with
  | zero =>
    intro i cc hd
    rw [NoteInfo.phys_erase_loop, if_neg (by omega)]
    exact ⟨cc, rfl⟩
  | succ d ih =>
    intro i cc hd
    have hi : i < count := by omega
    have hi2 : i < 2 := by omega
    have hi1 : i - 1 < 2 := by omega
    rw [NoteInfo.phys_erase_loop, if_pos hi, dif_pos hi2, dif_pos hi1]
    exact ih (i + 1) _ (by omega)

theorem phys_erase_at_spec (n : NoteInfo) (pos : Nat) (hn : n.chip_channels_count ≤ 2)
    (hpos : pos < n.chip_channels_count) :
    ∃ n1, NoteInfo.phys_erase_at n pos = .ok n1 ∧
      n1.chip_channels_count = n.chip_channels_count - 1 := by
  obtain ⟨cc1, hcc⟩ := phys_erase_loop_ok n.chip_channels_count hn _ (pos + 1)
    n.chip_channels rfl
  unfold NoteInfo.phys_erase_at
  rw [if_pos hpos, hcc]
  refine ⟨_, rfl, ?_⟩
  show (n.chip_channels_count + 4294967295) % 4294967296 = n.chip_channels_count - 1
  omega

theorem phys_erase_spec (n : NoteInfo) (c : Nat) (hn : n.chip_channels_count ≤ 2) :
    ∃ n1, NoteInfo.phys_erase n c = .ok n1 ∧
      n1.chip_channels_count ≤ n.chip_channels_count := by
  obtain ⟨r0, hfind, hspec⟩ := phys_find_spec n c hn
  unfold NoteInfo.phys_erase
  rw [hfind]
  cases r0 with
  | none => exact ⟨n, rfl, le_refl _⟩
  | some j =>
    obtain ⟨n1, h1, h2⟩ := phys_erase_at_spec n j hn hspec.2.1
    exact ⟨n1, h1, by omega⟩

theorem physOp_apply_count (n n1 : NoteInfo) (op : PhysOp)
    (hn : n.chip_channels_count ≤ 2) (happ : PhysOp.apply n op = .ok n1) :
    n1.chip_channels_count ≤ 2 := by
  cases op with
  | find_or_create c =>
    obtain ⟨m, r, h1, h2, -, -⟩ := phys_find_or_create_spec n c hn
    simp only [PhysOp.apply, h1, Except.ok.injEq] at happ
    rw [← happ]
    exact h2
  | ensure_find_or_create c =>
    obtain ⟨m, r, h1, h2, -, -⟩ := phys_find_or_create_spec n c hn
    cases r with
    | none => simp [PhysOp.apply, NoteInfo.phys_ensure_find_or_create, h1] at happ
    | some i =>
      simp only [PhysOp.apply, NoteInfo.phys_ensure_find_or_create, h1,
        Except.ok.injEq] at happ
      rw [← happ]
      exact h2
  | erase c =>
    obtain ⟨m, h1, h2⟩ := phys_erase_spec n c hn
    simp only [PhysOp.apply, h1, Except.ok.injEq] at happ
    rw [← happ]
    omega
  | erase_at pos =>
    by_cases hpos : pos < n.chip_channels_count
    · obtain ⟨m, h1, h2⟩ := phys_erase_at_spec n pos hn hpos
      simp only [PhysOp.apply, h1, Except.ok.injEq] at happ
      rw [← happ]
      omega
    · simp [PhysOp.apply, NoteInfo.phys_erase_at, hpos] at happ

theorem physOp_run_count (ops : List PhysOp) :
    ∀ n n1 : NoteInfo, n.chip_channels_count ≤ 2 → PhysOp.run n ops = .ok n1 →
      n1.chip_channels_count ≤ 2 := by
  induction ops with
  | nil =>
    intro n n1 hn hrun
    simp only [PhysOp.run, Except.ok.injEq] at hrun
    rw [← hrun]
    exact hn
  | cons op ops ih =>
    intro n n1 hn hrun
    unfold PhysOp.run at hrun
    cases happ : PhysOp.apply n op with
    | error e => simp [happ] at hrun
    | ok m =>
      simp only [happ] at hrun
      exact ih m n1 (physOp_apply_count n m op hn happ) hrun

theorem physOp_run_total (ops : List PhysOp) :
    ∀ n : NoteInfo, n.chip_channels_count ≤ 2 → (∀ op ∈ ops, op.isTotal = true) →
      ∃ n1, PhysOp.run n ops = .ok n1 := by
  induction ops with
  | nil => exact fun n _ _ => ⟨n, rfl⟩
  | cons op ops ih =>
    intro n hn hall
    have hop : op.isTotal = true := hall op (List.mem_cons_self _ _)
    have htail : ∀ o ∈ ops, o.isTotal = true :=
      fun o ho => hall o (List.mem_cons_of_mem _ ho)
    have happ : ∃ m, PhysOp.apply n op = .ok m := by
      cases op with
      | find_or_create c =>
        obtain ⟨m, r, h1, -, -, -⟩ := phys_find_or_create_spec n c hn
        exact ⟨m, by simp [PhysOp.apply, h1]⟩
      | erase c =>
        obtain ⟨m, h1, -⟩ := phys_erase_spec n c hn
        exact ⟨m, by simp [PhysOp.apply, h1]⟩
      | ensure_find_or_create c => simp [PhysOp.isTotal] at hop
      | erase_at pos => simp [PhysOp.isTotal] at hop
    obtain ⟨m, hm⟩ := happ
    unfold PhysOp.run
    rw [hm]
    exact ih m (physOp_apply_count n m op hn hm) htail

/-- C4: the predicate `chip_channels_count <= MaxNumPhysItemCount` (that is, 2) is
preserved by `phys_find_or_create`, `phys_ensure_find_or_create` (which either fails its
assertion or returns), `phys_erase` and `phys_erase_at` (called with a pointer to one of
the first `chip_channels_count` entries); so it holds after every sequence of these
operations, in particular after one that starts from a record without claims, and a
sequence of `phys_find_or_create` and `phys_erase` calls always runs to its end. -/
theorem phys_count_le_max (n : NoteInfo)
    (hn : n.chip_channels_count ≤ MaxNumPhysItemCount) :
    (∀ c, ∃ n1 r, n.phys_find_or_create c = .ok (n1, r) ∧
      n1.chip_channels_count ≤ MaxNumPhysItemCount) ∧
    (∀ c, n.phys_ensure_find_or_create c = .error .assertion ∨
      ∃ n1 i, n.phys_ensure_find_or_create c = .ok (n1, i) ∧
        n1.chip_channels_count ≤ MaxNumPhysItemCount) ∧
    (∀ c, ∃ n1, n.phys_erase c = .ok n1 ∧
      n1.chip_channels_count ≤ MaxNumPhysItemCount) ∧
    (∀ pos, pos < n.chip_channels_count →
      ∃ n1, n.phys_erase_at pos = .ok n1 ∧
        n1.chip_channels_count ≤ MaxNumPhysItemCount) ∧
    (∀ ops n1, PhysOp.run n ops = .ok n1 →
      n1.chip_channels_count ≤ MaxNumPhysItemCount) ∧
    (∀ ops : List PhysOp, (∀ op ∈ ops, op.isTotal = true) →
      ∃ n1, PhysOp.run n ops = .ok n1 ∧
        n1.chip_channels_count ≤ MaxNumPhysItemCount) := by
  have hn2 : n.chip_channels_count ≤ 2 := hn
  refine ⟨?_, ?_, ?_, ?_, fun ops n1 h => physOp_run_count ops n n1 hn2 h, ?_⟩
  · intro c
    obtain ⟨n1, r, h1, h2, -, -⟩ := phys_find_or_create_spec n c hn2
    exact ⟨n1, r, h1, h2⟩
  · intro c
    obtain ⟨n1, r, h1, h2, -, -⟩ := phys_find_or_create_spec n c hn2
    cases r with
    | none =>
      left
      simp [NoteInfo.phys_ensure_find_or_create, h1]
    | some i =>
      right
      exact ⟨n1, i, by simp [NoteInfo.phys_ensure_find_or_create, h1], h2⟩
  · intro c
    obtain ⟨n1, h1, h2⟩ := phys_erase_spec n c hn2
    exact ⟨n1, h1, le_trans h2 hn2⟩
  · intro pos hpos
    obtain ⟨n1, h1, h2⟩ := phys_erase_at_spec n pos hn2 hpos
    exact ⟨n1, h1, by show n1.chip_channels_count ≤ 2; omega⟩
  · intro ops hall
    obtain ⟨n1, h1⟩ := physOp_run_total ops n hn2 hall
    exact ⟨n1, h1, physOp_run_count ops n n1 hn2 h1⟩

/-- The hypothesis of `phys_count_le_max` is satisfiable: a record without claims, on
which three voices are requested, one is released and a fourth is requested; the record
then holds two claims. -/
theorem phys_count_le_max_witness :
    (NoteInfo.sample 60 true (fun _ => Phys.sample 0) 0).chip_channels_count
      ≤ MaxNumPhysItemCount ∧
    ∃ n1,
      PhysOp.run (NoteInfo.sample 60 true (fun _ => Phys.sample 0) 0)
        [.find_or_create 1, .find_or_create 2, .find_or_create 3, .erase 1,
          .find_or_create 4] = .ok n1 ∧
      n1.chip_channels_count ≤ MaxNumPhysItemCount :=
  ⟨by decide,
    (phys_count_le_max (NoteInfo.sample 60 true (fun _ => Phys.sample 0) 0)
      (by decide)).2.2.2.2.2 _ (by decide)⟩

/-- C5: for a record with `chip_channels_count <= 2` and `chip_chan <= 65535`,
`phys_find_or_create(chip_chan)` returns null if and only if no existing claim names
`chip_chan` and `chip_channels_count == 2`, and then the record is unchanged; the
assertion in `phys_ensure_find_or_create` holds exactly when the voice is already
claimed by the note or the note holds fewer than 2 claims, and fails otherwise.  (The
proof makes no use of the bound on `chip_chan`.) -/
theorem phys_find_or_create_null_iff (n : NoteInfo) (c : Nat)
    (hn : n.chip_channels_count ≤ 2) (_hc : c ≤ 65535) :
    (∃ n1 r, n.phys_find_or_create c = .ok (n1, r) ∧
      (r = none ↔ (¬ n.claims c ∧ n.chip_channels_count = 2)) ∧
      (r = none → n1 = n)) ∧
    ((∃ res, n.phys_ensure_find_or_create c = .ok res) ↔
      (n.claims c ∨ n.chip_channels_count < 2)) ∧
    (¬ (n.claims c ∨ n.chip_channels_count < 2) →
      n.phys_ensure_find_or_create c = .error .assertion) := by
  obtain ⟨n1, r, h1, -, h3, h4⟩ := phys_find_or_create_spec n c hn
  have hcases : r = none ↔ ¬ (n.claims c ∨ n.chip_channels_count < 2) := by
    rw [h3, not_or]
    constructor
    · rintro ⟨ha, hb⟩
      exact ⟨ha, by omega⟩
    · rintro ⟨ha, hb⟩
      exact ⟨ha, by omega⟩
  refine ⟨⟨n1, r, h1, h3, h4⟩, ?_, ?_⟩
  · cases r with
    | none =>
      have hneg := hcases.mp rfl
      simp [NoteInfo.phys_ensure_find_or_create, h1, hneg]
    | some i =>
      have hpos : n.claims c ∨ n.chip_channels_count < 2 := by
        by_contra hcon
        exact absurd (hcases.mpr hcon) (by simp)
      simp [NoteInfo.phys_ensure_find_or_create, h1, hpos]
  · intro hneg
    have hr := hcases.mpr hneg
    subst hr
    simp [NoteInfo.phys_ensure_find_or_create, h1]

/-- The hypotheses of `phys_find_or_create_null_iff` are satisfiable: a record holding
claims on the voices 10 and 11, asked for voice 12; the request is refused and the
assertion of `phys_ensure_find_or_create` fails. -/
theorem phys_find_or_create_null_iff_witness :
    ((NoteInfo.sample 60 true (fun i => Phys.sample (10 + i.val)) 2).chip_channels_count
      ≤ 2 ∧ 12 ≤ 65535) ∧
    (NoteInfo.sample 60 true (fun i => Phys.sample (10 + i.val)) 2).phys_ensure_find_or_create
      12 = .error .assertion :=
  ⟨by decide,
    (phys_find_or_create_null_iff
      (NoteInfo.sample 60 true (fun i => Phys.sample (10 + i.val)) 2) 12
      (by decide) (by decide)).2.2
      (by
        rintro (⟨k, -, hk⟩ | h)
        · revert hk
          revert k
          decide
        · revert h
          decide)⟩

/-! ## Iteration over the active notes -/

theorem isActive_lt (tbl : NoteTable) (i : Nat) (h : i < 128) :
    isActive tbl i = (tbl ⟨i, h⟩).active := by
  simp [isActive, h]

theorem isActive_ge (tbl : NoteTable) (i : Nat) (h : 128 ≤ i) :
    isActive tbl i = false := by
  simp [isActive, Nat.not_lt.mpr h]

theorem lt_of_isActive (tbl : NoteTable) (i : Nat) (h : isActive tbl i = true) :
    i < 128 := by
  by_contra hcon
  rw [isActive_ge tbl i (by omega)] at h
  exact Bool.noConfusion h

theorem LowestActiveFrom.inTable {tbl : NoteTable} {p : Nat} {r : activenoteiterator}
    (h : LowestActiveFrom tbl p r) : InTable r := by
  intro j hj
  subst hj
  exact lt_of_isActive tbl j h.2.1

theorem LowestActiveFrom.skip {tbl : NoteTable} {p : Nat} {r : activenoteiterator}
    (h : LowestActiveFrom tbl (p + 1) r) (hp : isActive tbl p = false) :
    LowestActiveFrom tbl p r := by
  cases r with
  | none =>
    intro k hk
    by_cases hkp : k = p
    · rw [hkp]
      exact hp
    · exact h k (by omega)
  | some j =>
    obtain ⟨h1, h2, h3⟩ := h
    refine ⟨by omega, h2, ?_⟩
    intro k hk1 hk2
    by_cases hkp : k = p
    · rw [hkp]
      exact hp
    · exact h3 k (by omega) hk2

theorem LowestActiveFrom.step {tbl : NoteTable} {p : Nat} {r : activenoteiterator}
    (h : LowestActiveFrom tbl p r) (hp : isActive tbl p = false) :
    LowestActiveFrom tbl (p + 1) r := by
  cases r with
  | none => exact fun k hk => h k (by omega)
  | some j =>
    obtain ⟨h1, h2, h3⟩ := h
    have hne : j ≠ p := by
      intro e
      rw [e, hp] at h2
      exact Bool.noConfusion h2
    exact ⟨by omega, h2, fun k hk1 hk2 => h3 k (by omega) hk2⟩

theorem incLoop_spec (tbl : NoteTable) (hidx : NotesIndexed tbl) :
    ∀ d p, 128 - p = d → p < 128 →
      ∃ r k, activenoteiterator.incLoop tbl (some p) = .ok (r, k) ∧ k ≤ 128 - p ∧
        LowestActiveFrom tbl p r := by
  intro d
  induction d with
  | zero => exact fun p hd hp => absurd hd (by omega)
  | succ d ih =>
    intro p hd hp
    rw [activenoteiterator.incLoop, dif_pos hp]
    cases hact : (tbl ⟨p, hp⟩).active
    · have hinact : isActive tbl p = false := by rw [isActive_lt tbl p hp, hact]
      have hnote : (tbl ⟨p, hp⟩).note = p := hidx ⟨p, hp⟩
      simp only [Bool.false_eq_true, if_false, hnote]
      by_cases h127 : p = 127
      · rw [if_pos h127, activenoteiterator.incLoop]
        refine ⟨none, 1, rfl, by omega, ?_⟩
        intro k hk
        by_cases hk128 : k < 128
        · have hkp : k = p := by omega
          rw [hkp]
          exact hinact
        · exact isActive_ge tbl k (by omega)
      · rw [if_neg h127]
        obtain ⟨r, k, hr, hk, hlow⟩ := ih (p + 1) (by omega) (by omega)
        rw [hr]
        exact ⟨r, k + 1, rfl, by omega, hlow.skip hinact⟩
    · simp only [if_true]
      refine ⟨some p, 0, rfl, Nat.zero_le _, le_refl p, ?_, ?_⟩
      · rw [isActive_lt tbl p hp, hact]
      · exact fun k hk1 hk2 => absurd hk2 (by omega)

theorem incCount_spec (tbl : NoteTable) (hidx : NotesIndexed tbl) (i : Nat)
    (hi : i < 128) :
    ∃ r k, activenoteiterator.incCount tbl (some i) = .ok (r, k) ∧ k ≤ 127 - i ∧
      LowestActiveFrom tbl (i + 1) r := by
  have hnote : (tbl ⟨i, hi⟩).note = i := hidx ⟨i, hi⟩
  unfold activenoteiterator.incCount
  simp only [derefNote_lt tbl i hi, hnote]
  by_cases h127 : i = 127
  · rw [if_pos h127]
    exact ⟨none, 0, rfl, Nat.zero_le _, fun k hk => isActive_ge tbl k (by omega)⟩
  · rw [if_neg h127]
    obtain ⟨r, k, hr, hk, hlow⟩ := incLoop_spec tbl hidx _ (i + 1) rfl (by omega)
    exact ⟨r, k, hr, by omega, hlow⟩

theorem operator_inc_spec (tbl : NoteTable) (hidx : NotesIndexed tbl) (i : Nat)
    (hi : i < 128) :
    ∃ r, activenoteiterator.operator_inc tbl (some i) = .ok r ∧
      LowestActiveFrom tbl (i + 1) r := by
  obtain ⟨r, k, hr, -, hlow⟩ := incCount_spec tbl hidx i hi
  exact ⟨r, by simp [activenoteiterator.operator_inc, hr], hlow⟩

theorem activenotes_begin_spec (ch : MIDIchannel) (hidx : NotesIndexed ch.activenotes) :
    ∃ r, activenotes_begin ch = .ok r ∧ LowestActiveFrom ch.activenotes 0 r := by
  have h0 : (0 : Nat) < 128 := by decide
  unfold activenotes_begin
  rw [derefNote_lt ch.activenotes 0 h0]
  cases hact : (ch.activenotes ⟨0, h0⟩).active
  · simp only [hact, Bool.false_eq_true, if_false]
    obtain ⟨r, hr, hlow⟩ := operator_inc_spec ch.activenotes hidx 0 h0
    refine ⟨r, hr, hlow.skip ?_⟩
    rw [isActive_lt ch.activenotes 0 h0, hact]
  · simp only [hact, if_true]
    refine ⟨some 0, rfl, le_refl 0, ?_, fun k _ hk => absurd hk (by omega)⟩
    rw [isActive_lt ch.activenotes 0 h0, hact]

theorem activeNotesFrom_ge (tbl : NoteTable) (p : Nat) (h : 128 ≤ p) :
    activeNotesFrom tbl p = [] := by
  have h0 : 128 - p = 0 := by omega
  simp [activeNotesFrom, h0]

theorem activeNotesFrom_lt (tbl : NoteTable) (p : Nat) (h : p < 128) :
    activeNotesFrom tbl p =
      if isActive tbl p then p :: activeNotesFrom tbl (p + 1)
      else activeNotesFrom tbl (p + 1) := by
  have h0 : 128 - p = (128 - (p + 1)) + 1 := by omega
  unfold activeNotesFrom
  rw [h0, List.range'_succ, List.filter_cons]

theorem activeNotesFrom_lowest (tbl : NoteTable) :
    ∀ d p r, 128 - p = d → LowestActiveFrom tbl p r →
      activeNotesFrom tbl p =
        match r with
        | none => []
        | some j => j :: activeNotesFrom tbl (j + 1) := by
  intro d
  induction d with
  | zero =>
    intro p r hd hlow
    rw [activeNotesFrom_ge tbl p (by omega)]
    cases r with
    | none => rfl
    | some j =>
      have hj := lt_of_isActive tbl j hlow.2.1
      have hpj := hlow.1
      omega
  | succ d ih =>
    intro p r hd hlow
    have hp : p < 128 := by omega
    rw [activeNotesFrom_lt tbl p hp]
    cases hact : isActive tbl p
    · simp only [Bool.false_eq_true, if_false]
      exact ih (p + 1) r (by omega) (hlow.step hact)
    · simp only [if_true]
      cases r with
      | none =>
        rw [hlow p (le_refl p)] at hact
        exact Bool.noConfusion hact
      | some j =>
        obtain ⟨h1, -, h3⟩ := hlow
        have hjp : j = p := by
          by_contra hne
          rw [h3 p (le_refl p) (by omega)] at hact
          exact Bool.noConfusion hact
        rw [hjp]

theorem iterateFrom_spec (tbl : NoteTable) (hidx : NotesIndexed tbl) :
    ∀ fuel p r, LowestActiveFrom tbl p r → 128 ≤ fuel + p →
      iterateFrom tbl fuel r = .ok (some (activeNotesFrom tbl p)) := by
  intro fuel
  induction fuel with
  | zero =>
    intro p r hlow hfuel
    rw [activeNotesFrom_lowest tbl _ p r rfl hlow]
    cases r with
    | none => rfl
    | some j =>
      have hj := lt_of_isActive tbl j hlow.2.1
      have hpj := hlow.1
      omega
  | succ f ih =>
    intro p r hlow hfuel
    rw [activeNotesFrom_lowest tbl _ p r rfl hlow]
    cases r with
    | none => rfl
    | some j =>
      have hj := lt_of_isActive tbl j hlow.2.1
      have hpj := hlow.1
      obtain ⟨r1, hr1, hlow1⟩ := operator_inc_spec tbl hidx j hj
      have hrest := ih (j + 1) r1 hlow1 (by omega)
      simp only [iterateFrom, hr1, hrest]

theorem activenotes_iterate_spec (ch : MIDIchannel) (hidx : NotesIndexed ch.activenotes)
    (fuel : Nat) (hfuel : 128 ≤ fuel) :
    activenotes_iterate ch fuel = .ok (some (activeNotesFrom ch.activenotes 0)) := by
  obtain ⟨r, hr, hlow⟩ := activenotes_begin_spec ch hidx
  unfold activenotes_iterate
  rw [hr]
  exact iterateFrom_spec ch.activenotes hidx fuel 0 r hlow (by omega)

theorem activeNotesFrom_length (tbl : NoteTable) (p : Nat) :
    (activeNotesFrom tbl p).length ≤ 128 - p := by
  unfold activeNotesFrom
  exact le_trans (List.length_filter_le _ _) (by simp)

theorem mem_activeNotesFrom (tbl : NoteTable) (p j : Nat) :
    j ∈ activeNotesFrom tbl p ↔ p ≤ j ∧ isActive tbl j = true := by
  unfold activeNotesFrom
  rw [List.mem_filter, List.mem_range'_1]
  constructor
  · exact fun h => ⟨h.1.1, h.2⟩
  · intro h
    have hj := lt_of_isActive tbl j h.2
    exact ⟨⟨h.1, by omega⟩, h.2⟩

theorem activeNotesFrom_pairwise (tbl : NoteTable) (p : Nat) :
    (activeNotesFrom tbl p).Pairwise (· < ·) := by
  unfold activeNotesFrom
  exact List.Pairwise.filter _ (List.pairwise_lt_range' p (128 - p))

/-- C2: on a channel with `activenotes[i].note == i`, the sequence obtained by starting
at `activenotes_begin()` and applying `operator++` until the iterator is null is reached
with 128 increments or fewer and visits exactly the entries whose active flag is set,
each once, in strictly increasing note number; `activenotes_begin()` is the lowest
active note (null when there is none) and `operator++` from note `i` yields the lowest
active note above `i` (or null). -/
theorem activenotes_iteration_spec (ch : MIDIchannel)
    (hidx : NotesIndexed ch.activenotes) :
    (∃ visited : List Nat,
      (∀ fuel, 128 ≤ fuel → activenotes_iterate ch fuel = .ok (some visited)) ∧
      visited = (List.range 128).filter (isActive ch.activenotes) ∧
      (∀ j : Fin 128, j.val ∈ visited ↔ (ch.activenotes j).active = true) ∧
      (∀ j ∈ visited, j < 128) ∧
      visited.Pairwise (· < ·)) ∧
    (∃ it, activenotes_begin ch = .ok it ∧ LowestActiveFrom ch.activenotes 0 it) ∧
    (∀ i, i < 128 →
      ∃ it, activenoteiterator.operator_inc ch.activenotes (some i) = .ok it ∧
        LowestActiveFrom ch.activenotes (i + 1) it) := by
  refine ⟨⟨activeNotesFrom ch.activenotes 0, ?_, ?_, ?_, ?_, ?_⟩,
    activenotes_begin_spec ch hidx,
    fun i hi => operator_inc_spec ch.activenotes hidx i hi⟩
  · exact fun fuel hfuel => activenotes_iterate_spec ch hidx fuel hfuel
  · rw [List.range_eq_range']
    rfl
  · intro j
    rw [mem_activeNotesFrom, isActive_lt ch.activenotes j.val j.isLt]
    simp
  · intro j hj
    exact lt_of_isActive _ j ((mem_activeNotesFrom _ 0 j).mp hj).2
  · exact activeNotesFrom_pairwise _ 0

set_option maxRecDepth 100000 in
/-- The hypothesis of `activenotes_iteration_spec` is satisfiable: on a channel in which
the notes 60, 64 and 127 are active, the traversal visits 60, 64, 127. -/
theorem activenotes_iteration_spec_witness :
    NotesIndexed
      (MIDIchannel.sample (fun i => i == 60 || i == 64 || i == 127) 2 0 0).activenotes ∧
    activenotes_iterate
      (MIDIchannel.sample (fun i => i == 60 || i == 64 || i == 127) 2 0 0) 128
        = .ok (some [60, 64, 127]) :=
  ⟨fun _ => rfl, by
    obtain ⟨⟨visited, hrun, hval, -⟩, -⟩ :=
      activenotes_iteration_spec
        (MIDIchannel.sample (fun i => i == 60 || i == 64 || i == 127) 2 0 0)
        (fun _ => rfl)
    have hlist : (List.range 128).filter (isActive
        (MIDIchannel.sample (fun i => i == 60 || i == 64 || i == 127) 2 0 0).activenotes)
        = [60, 64, 127] := by decide
    rw [hrun 128 (le_refl 128), hval, hlist]⟩

/-- C9: on a channel with `activenotes[i].note == i`, iteration over the active notes
terminates.  `operator++` on an iterator at note `i` executes the body of its inner loop
at most `127 - i` times and returns null or an iterator at a larger note number
below 128; the traversal from `activenotes_begin()` reaches the null iterator within 128
increments, the one that `activenotes_begin()` performs itself when note 0 is not active
included. -/
theorem activenotes_iteration_terminates (ch : MIDIchannel)
    (hidx : NotesIndexed ch.activenotes) :
    (∀ i, i < 128 →
      ∃ it k, activenoteiterator.incCount ch.activenotes (some i) = .ok (it, k) ∧
        k ≤ 127 - i ∧ (it = none ∨ ∃ j, it = some j ∧ i < j ∧ j < 128)) ∧
    (∃ visited : List Nat,
      activenotes_iterate ch 128 = .ok (some visited) ∧
      visited.length + (if (ch.activenotes 0).active then 0 else 1) ≤ 128) := by
  constructor
  · intro i hi
    obtain ⟨r, k, hr, hk, hlow⟩ := incCount_spec ch.activenotes hidx i hi
    refine ⟨r, k, hr, hk, ?_⟩
    cases r with
    | none => exact Or.inl rfl
    | some j => exact Or.inr ⟨j, rfl, hlow.1, lt_of_isActive _ j hlow.2.1⟩
  · refine ⟨_, activenotes_iterate_spec ch hidx 128 (le_refl 128), ?_⟩
    have h0 : (0 : Nat) < 128 := by decide
    have hfin : (0 : Fin 128) = ⟨0, h0⟩ := rfl
    rw [hfin]
    cases hact : (ch.activenotes ⟨0, h0⟩).active
    · have hinact : isActive ch.activenotes 0 = false := by
        rw [isActive_lt ch.activenotes 0 h0, hact]
      have hlen := activeNotesFrom_length ch.activenotes (0 + 1)
      rw [activeNotesFrom_lt ch.activenotes 0 h0, hinact]
      simp only [Bool.false_eq_true, if_false]
      omega
    · have hlen := activeNotesFrom_length ch.activenotes 0
      simp only [if_true, Nat.add_zero]
      omega

/-- The hypothesis of `activenotes_iteration_terminates` is satisfiable: on a channel in
which every note is active, the traversal reaches the null iterator after 128
increments. -/
theorem activenotes_iteration_terminates_witness :
    NotesIndexed (MIDIchannel.sample (fun _ => true) 2 0 0).activenotes ∧
    ∃ visited : List Nat,
      activenotes_iterate (MIDIchannel.sample (fun _ => true) 2 0 0) 128
        = .ok (some visited) ∧
      visited.length + 0 ≤ 128 :=
  ⟨fun _ => rfl,
    (activenotes_iteration_terminates (MIDIchannel.sample (fun _ => true) 2 0 0)
      (fun _ => rfl)).2⟩

/-- C10: on a channel with `activenotes[i].note == i`, `activenotes_begin()`,
`operator++` on an iterator that designates a table entry, and `activenotes_find` and
`activenotes_insert` with `note < 128` run without reading or writing outside
`activenotes[0..127]` and without failing an assertion; the iterators they return are
null or designate a table entry, and the table after `activenotes_insert` still has
`activenotes[i].note == i`. -/
theorem activenotes_access_in_range (ch : MIDIchannel)
    (hidx : NotesIndexed ch.activenotes) :
    (∃ it, activenotes_begin ch = .ok it ∧ InTable it) ∧
    (∀ i, i < 128 →
      ∃ it, activenoteiterator.operator_inc ch.activenotes (some i) = .ok it ∧
        InTable it) ∧
    (∀ n, n < 128 → ∃ it, activenotes_find ch n = .ok it ∧ InTable it) ∧
    (∀ n, n < 128 →
      ∃ ch1 r, activenotes_insert ch n = .ok (ch1, r) ∧ InTable r.1 ∧
        NotesIndexed ch1.activenotes) := by
  refine ⟨?_, ?_, ?_, ?_⟩
  · obtain ⟨r, hr, hlow⟩ := activenotes_begin_spec ch hidx
    exact ⟨r, hr, hlow.inTable⟩
  · intro i hi
    obtain ⟨r, hr, hlow⟩ := operator_inc_spec ch.activenotes hidx i hi
    exact ⟨r, hr, hlow.inTable⟩
  · intro n hn
    refine ⟨_, activenotes_find_lt ch n hn, ?_⟩
    intro p hp
    cases hact : (ch.activenotes ⟨n, hn⟩).active
    · simp [hact] at hp
    · simp only [hact, if_true, Option.some.injEq] at hp
      omega
  · intro n hn
    refine ⟨_, _, activenotes_insert_lt ch n hn, ?_, ?_⟩
    · intro p hp
      simp only [Option.some.injEq] at hp
      omega
    · cases hact : (ch.activenotes ⟨n, hn⟩).active
      · simp only [Bool.false_eq_true, if_false]
        intro i
        by_cases hi : i = ⟨n, hn⟩
        · rw [hi, Function.update_same]
          exact hidx ⟨n, hn⟩
        · rw [Function.update_noteq hi]
          exact hidx i
      · simpa using hidx

/-- The hypothesis of `activenotes_access_in_range` is satisfiable: on a channel in
which no note is active, `operator++` from the first entry walks the whole table and
returns the null iterator. -/
theorem activenotes_access_in_range_witness :
    NotesIndexed (MIDIchannel.sample (fun _ => false) 2 0 0).activenotes ∧
    ∃ it,
      activenoteiterator.operator_inc
        (MIDIchannel.sample (fun _ => false) 2 0 0).activenotes (some 0) = .ok it ∧
      InTable it :=
  ⟨fun _ => rfl,
    (activenotes_access_in_range (MIDIchannel.sample (fun _ => false) 2 0 0)
      (fun _ => rfl)).2.1 0 (by decide)⟩

/-! ## Clearing the note table, resetting the controllers, construction -/

theorem storeCleared_lt (tbl : NoteTable) (p note : Nat) (h : p < 128) :
    storeCleared tbl p note =
      .ok (Function.update tbl ⟨p, h⟩ { tbl ⟨p, h⟩ with note := note, active := false }) := by
  simp [storeCleared, h]

theorem activenotes_clear_loop_spec (d : Nat) :
    ∀ (i : Nat) (tbl : NoteTable), 128 - i = d → i ≤ 128 →
      activenotes_clear_loop tbl i =
        .ok (fun j => if i ≤ j.val then { tbl j with note := j.val, active := false }
                      else tbl j,
             128 - i) := by
  induction d with
  | zero =>
    intro i tbl hd hi
    have hi128 : i = 128 := by omega
    subst hi128
    rw [activenotes_clear_loop, if_neg (by decide)]
    congr 2
    funext j
    rw [if_neg (by have := j.isLt; omega)]
  | succ d ih =>
    intro i tbl hd hi
    have hlt : i < 128 := by omega
    have hnext : (i + 1) % 256 = i + 1 := by omega
    rw [activenotes_clear_loop, if_pos hlt, storeCleared_lt tbl i i hlt, hnext]
    have hcount : 128 - (i + 1) + 1 = 128 - i := by omega
    simp only [ih (i + 1) _ (by omega) (by omega), hcount]
    congr 2
    funext j
    by_cases hji : j = ⟨i, hlt⟩
    · subst hji
      simp
    · have hne : j.val ≠ i := fun e => hji (Fin.ext e)
      rw [Function.update_noteq hji]
      by_cases hle : i ≤ j.val
      · rw [if_pos hle, if_pos (by omega)]
      · rw [if_neg hle, if_neg (by omega)]

theorem activenotes_clear_count_eq (ch : MIDIchannel) :
    activenotes_clear_count ch =
      .ok ({ ch with
             activenotes := fun j =>
               { ch.activenotes j with note := j.val, active := false } }, 128) := by
  unfold activenotes_clear_count
  rw [activenotes_clear_loop_spec 128 0 ch.activenotes rfl (by decide)]
  simp

theorem activenotes_clear_eq (ch : MIDIchannel) :
    activenotes_clear ch =
      .ok { ch with
            activenotes := fun j =>
              { ch.activenotes j with note := j.val, active := false } } := by
  unfold activenotes_clear
  rw [activenotes_clear_count_eq]

theorem construct_eq (raw : MIDIchannel) :
    MIDIchannel.construct raw =
      .ok (reset { raw with
                   activenotes := fun j =>
                     { raw.activenotes j with note := j.val, active := false }
                   gliding_note_count := 0 }) := by
  unfold MIDIchannel.construct
  rw [activenotes_clear_eq]

theorem begin_none_of_inactive (ch : MIDIchannel) (hidx : NotesIndexed ch.activenotes)
    (hin : ∀ i : Fin 128, (ch.activenotes i).active = false) :
    activenotes_begin ch = .ok none := by
  obtain ⟨r, hr, hlow⟩ := activenotes_begin_spec ch hidx
  cases r with
  | none => exact hr
  | some j =>
    have hact := hlow.2.1
    have hj := lt_of_isActive _ j hact
    rw [isActive_lt _ j hj, hin ⟨j, hj⟩] at hact
    exact Bool.noConfusion hact

/-- C15: `activenotes_clear()` terminates after exactly 128 iterations of its loop and
leaves every entry `i` in 0..127 with `note == i` and `active == false`; for a newly
constructed channel (whatever the storage held before) `activenotes_begin()` is null,
`activenotes_empty()` is true, `activenotes_find(n)` is null for every `n < 128`, and
`gliding_note_count` is 0. -/
theorem activenotes_clear_spec (ch : MIDIchannel) :
    (∃ ch1, activenotes_clear_count ch = .ok (ch1, 128) ∧
      activenotes_clear ch = .ok ch1 ∧
      ∀ i : Fin 128, (ch1.activenotes i).note = i.val ∧
        (ch1.activenotes i).active = false) ∧
    (∃ c, MIDIchannel.construct ch = .ok c ∧
      activenotes_begin c = .ok none ∧
      activenotes_empty c = .ok true ∧
      (∀ n, n < 128 → activenotes_find c n = .ok none) ∧
      c.gliding_note_count = 0) := by
  constructor
  · exact ⟨_, activenotes_clear_count_eq ch, activenotes_clear_eq ch, fun i => ⟨rfl, rfl⟩⟩
  · have hbegin := begin_none_of_inactive
      (reset { ch with
               activenotes := fun j =>
                 { ch.activenotes j with note := j.val, active := false }
               gliding_note_count := 0 })
      (fun _ => rfl) (fun _ => rfl)
    refine ⟨_, construct_eq ch, hbegin, ?_, ?_, rfl⟩
    · unfold activenotes_empty
      rw [hbegin]
      rfl
    · intro n hn
      rw [activenotes_find_lt _ n hn]
      rfl

/-- C16: `resetAllControllers()` leaves `patch`, `bank_lsb`, `bank_msb`, `lastlrpn`,
`lastmrpn`, `nrpn`, `is_xg_percussion`, `vibpos`, `gliding_note_count` and all 128
`activenotes` entries unchanged; `reset()` leaves `gliding_note_count` and all 128
`activenotes` entries, their active flags included, unchanged. -/
theorem reset_frame (ch : MIDIchannel) :
    ((resetAllControllers ch).patch = ch.patch ∧
      (resetAllControllers ch).bank_lsb = ch.bank_lsb ∧
      (resetAllControllers ch).bank_msb = ch.bank_msb ∧
      (resetAllControllers ch).lastlrpn = ch.lastlrpn ∧
      (resetAllControllers ch).lastmrpn = ch.lastmrpn ∧
      (resetAllControllers ch).nrpn = ch.nrpn ∧
      (resetAllControllers ch).is_xg_percussion = ch.is_xg_percussion ∧
      (resetAllControllers ch).vibpos = ch.vibpos ∧
      (resetAllControllers ch).gliding_note_count = ch.gliding_note_count ∧
      ∀ i : Fin 128, (resetAllControllers ch).activenotes i = ch.activenotes i) ∧
    ((reset ch).gliding_note_count = ch.gliding_note_count ∧
      ∀ i : Fin 128, (reset ch).activenotes i = ch.activenotes i) :=
  ⟨⟨rfl, rfl, rfl, rfl, rfl, rfl, rfl, rfl, rfl, fun _ => rfl⟩, rfl, fun _ => rfl⟩

theorem reset_bendsense (ch : MIDIchannel) :
    (resetAllControllers ch).bendsense = .finite (1 / 4096) := by
  have hcent : toInt32 (2 * 128 + 0) = 256 := by decide
  show CDouble.finite (((toInt32 (2 * 128 + 0) : Int) : ℚ) * (1 / (128 * 8192))) = _
  rw [hcent]
  norm_num

/-- C17: `reset()` is state-independent on every member it writes and idempotent: after
`reset()` the channel has `bend` 0, `bendsense_msb` 2, `bendsense_lsb` 0, `volume` 100,
`expression` 127, `sustain` false, `softPedal` false, `vibrato` 0, `aftertouch` 0, all
128 `noteAftertouch` values 0, `noteAfterTouchInUse` false, `vibdelay` 0, `panning` 0xC0
(which is `OPN_PANNING_LEFT | OPN_PANNING_RIGHT`), `portamento` 0, `portamentoEnable`
false, `portamentoSource` -1, `brightness` 127, `patch` 0, `bank_lsb` 0, `bank_msb` 0,
`lastlrpn` 0, `lastmrpn` 0, `nrpn` false and `is_xg_percussion` false, and a second
`reset()` yields the same state as the first. -/
theorem reset_state_independent (ch : MIDIchannel) :
    ((reset ch).bend = 0 ∧ (reset ch).bendsense_msb = 2 ∧ (reset ch).bendsense_lsb = 0 ∧
      (reset ch).volume = 100 ∧ (reset ch).expression = 127 ∧
      (reset ch).sustain = false ∧ (reset ch).softPedal = false ∧
      (reset ch).vibrato = 0 ∧ (reset ch).aftertouch = 0 ∧
      (∀ i : Fin 128, (reset ch).noteAftertouch i = 0) ∧
      (reset ch).noteAfterTouchInUse = false ∧ (reset ch).vibdelay = 0 ∧
      (reset ch).panning = 0xC0 ∧ OPN_PANNING_LEFT ||| OPN_PANNING_RIGHT = 0xC0 ∧
      (reset ch).portamento = 0 ∧ (reset ch).portamentoEnable = false ∧
      (reset ch).portamentoSource = -1 ∧ (reset ch).brightness = 127 ∧
      (reset ch).patch = 0 ∧ (reset ch).bank_lsb = 0 ∧ (reset ch).bank_msb = 0 ∧
      (reset ch).lastlrpn = 0 ∧ (reset ch).lastmrpn = 0 ∧ (reset ch).nrpn = false ∧
      (reset ch).is_xg_percussion = false) ∧
    reset (reset ch) = reset ch :=
  ⟨⟨rfl, rfl, rfl, rfl, rfl, rfl, rfl, rfl, rfl, fun _ => rfl, rfl, rfl, rfl, by decide,
      rfl, rfl, rfl, rfl, rfl, rfl, rfl, rfl, rfl, rfl, rfl⟩, rfl⟩

theorem updateBendSensitivity_consistent (ch : MIDIchannel) (h : BendCentInRange ch) :
    BendCacheConsistent (updateBendSensitivity ch) := by
  have hcent : toInt32 (ch.bendsense_msb * 128 + ch.bendsense_lsb)
      = ch.bendsense_msb * 128 + ch.bendsense_lsb :=
    toInt32_of_mem _ h.2.2.2.1 (by have := h.2.2.2.2; omega)
  show CDouble.finite
      (((toInt32 (ch.bendsense_msb * 128 + ch.bendsense_lsb) : Int) : ℚ) *
        (1 / (128 * 8192))) =
    CDouble.finite (((ch.bendsense_msb : ℚ) * 128 + (ch.bendsense_lsb : ℚ)) / (128 * 8192))
  rw [hcent]
  congr 1
  push_cast
  ring

theorem resetAllControllers_consistent (ch : MIDIchannel) :
    BendCacheConsistent (resetAllControllers ch) ∧
    (resetAllControllers ch).bendsense_msb = 2 ∧
    (resetAllControllers ch).bendsense_lsb = 0 ∧
    (resetAllControllers ch).bendsense = .finite (1 / 4096) := by
  refine ⟨?_, rfl, rfl, reset_bendsense ch⟩
  show (resetAllControllers ch).bendsense =
    CDouble.finite ((((2 : Int) : ℚ) * 128 + ((0 : Int) : ℚ)) / (128 * 8192))
  rw [reset_bendsense]
  norm_num

/-- The product `16777216 * 128` is `2^31`: a state with `bendsense_msb = 16777216` is
outside `BendCentInRange` even when `bendsense_lsb = -1` brings the sum back into the
range of `int`. -/
theorem bendCentInRange_excludes_product_overflow :
    InIntRange (16777216 * 128 + -1) ∧
    ¬ BendCentInRange (MIDIchannel.sample (fun _ => false) 16777216 (-1) 0) := by
  constructor
  · unfold InIntRange
    decide
  · intro h
    have hprod : InIntRange (16777216 * 128) := h.2.2.1
    unfold InIntRange at hprod
    exact absurd hprod.2 (by decide)

/-- C12, as amended: the cache-consistency predicate
`bendsense == (bendsense_msb*128 + bendsense_lsb) / (128*8192)` holds for a newly
constructed channel, after `reset()` and after `resetAllControllers()` from any prior
state, and after `updateBendSensitivity()` from any prior state in which the `int`
expression `bendsense_msb*128 + bendsense_lsb` is evaluated without overflow (neither
the product `bendsense_msb*128` nor the sum leaves the range of `int`); after `reset()`
or `resetAllControllers()` the values are `bendsense_msb = 2`, `bendsense_lsb = 0` and
`bendsense = 1/4096`, whatever the state before the call. -/
theorem bend_cache_consistent (ch : MIDIchannel) :
    (∃ c, MIDIchannel.construct ch = .ok c ∧ BendCacheConsistent c) ∧
    (BendCacheConsistent (reset ch) ∧ (reset ch).bendsense_msb = 2 ∧
      (reset ch).bendsense_lsb = 0 ∧ (reset ch).bendsense = .finite (1 / 4096)) ∧
    (BendCacheConsistent (resetAllControllers ch) ∧
      (resetAllControllers ch).bendsense_msb = 2 ∧
      (resetAllControllers ch).bendsense_lsb = 0 ∧
      (resetAllControllers ch).bendsense = .finite (1 / 4096)) ∧
    (BendCentInRange ch → BendCacheConsistent (updateBendSensitivity ch)) := by
  refine ⟨⟨_, construct_eq ch, ?_⟩, ?_, resetAllControllers_consistent ch,
    updateBendSensitivity_consistent ch⟩
  · exact (resetAllControllers_consistent _).1
  · exact resetAllControllers_consistent ch

/-- The hypothesis in `bend_cache_consistent` is satisfiable: the sensitivity bytes 12
and 64 give the cached value `(12*128 + 64) / (128*8192)`. -/
theorem bend_cache_consistent_witness :
    BendCentInRange (MIDIchannel.sample (fun _ => false) 12 64 0) ∧
    BendCacheConsistent
      (updateBendSensitivity (MIDIchannel.sample (fun _ => false) 12 64 0)) :=
  ⟨by unfold BendCentInRange InIntRange; decide,
    (bend_cache_consistent (MIDIchannel.sample (fun _ => false) 12 64 0)).2.2.2
      (by unfold BendCentInRange InIntRange; decide)⟩

/-- C12 as stated fails: from a prior state with `bendsense_msb = 16777216` and
`bendsense_lsb = 0` (both values of an `int`), the product `bendsense_msb * 128` is
`2^31` and does not fit an `int`; `updateBendSensitivity()` stores -2048 while
`(bendsense_msb*128 + bendsense_lsb) / (128*8192)` is 2048. -/
theorem bend_cache_overflow_counterexample :
    (updateBendSensitivity (MIDIchannel.sample (fun _ => false) 16777216 0 0)).bendsense
      = .finite (-2048) ∧
    (((16777216 : Int) : ℚ) * 128 + ((0 : Int) : ℚ)) / (128 * 8192) = 2048 ∧
    ¬ BendCacheConsistent
      (updateBendSensitivity (MIDIchannel.sample (fun _ => false) 16777216 0 0)) := by
  have hcent : toInt32 (16777216 * 128 + 0) = -2147483648 := by decide
  have hval :
      (updateBendSensitivity (MIDIchannel.sample (fun _ => false) 16777216 0 0)).bendsense
        = .finite (-2048) := by
    show CDouble.finite (((toInt32 (16777216 * 128 + 0) : Int) : ℚ) * (1 / (128 * 8192)))
      = _
    rw [hcent]
    norm_num
  refine ⟨hval, by norm_num, ?_⟩
  intro hcon
  have hcon2 : (updateBendSensitivity
      (MIDIchannel.sample (fun _ => false) 16777216 0 0)).bendsense
      = .finite ((((16777216 : Int) : ℚ) * 128 + ((0 : Int) : ℚ)) / (128 * 8192)) := hcon
  rw [hval] at hcon2
  injection hcon2 with hq
  norm_num at hq

/-! ## Vibrato gate -/

/-- C18, as amended: `hasVibrato()` depends only on the members `vibrato`, `aftertouch`
and `noteAfterTouchInUse`: two channel states that agree on these three give the same
result, whatever their other members.  It is false after `resetAllControllers()`,
although `vibdepth` is then the nonzero binary64 value of `0.5/127`; and it is false
when `vibrato` and `aftertouch` are 0 and `noteAfterTouchInUse` is false, even if some
`noteAftertouch[i]` is nonzero. -/
theorem hasVibrato_depends_only :
    (∀ a b : MIDIchannel, a.vibrato = b.vibrato → a.aftertouch = b.aftertouch →
      a.noteAfterTouchInUse = b.noteAfterTouchInUse → hasVibrato a = hasVibrato b) ∧
    (∀ ch : MIDIchannel, hasVibrato (resetAllControllers ch) = false ∧
      ∃ q : ℚ, (resetAllControllers ch).vibdepth = .finite q ∧ q ≠ 0 ∧
        |q - (1 / 2) / 127| < 1 / 2 ^ 60) ∧
    (∀ ch : MIDIchannel, ch.vibrato = 0 → ch.aftertouch = 0 →
      ch.noteAfterTouchInUse = false → hasVibrato ch = false) := by
  refine ⟨?_, ?_, ?_⟩
  · intro a b h1 h2 h3
    simp only [hasVibrato, h1, h2, h3]
  · intro ch
    refine ⟨rfl, vibdepthDefault, rfl, ?_, ?_⟩
    · norm_num [vibdepthDefault]
    · rw [abs_lt]
      constructor <;> norm_num [vibdepthDefault]
  · intro ch h1 h2 h3
    simp [hasVibrato, h1, h2, h3]

/-- The hypotheses in `hasVibrato_depends_only` are satisfiable: a channel with
`vibrato` 0, `aftertouch` 0, `noteAfterTouchInUse` false and `noteAftertouch[60]` equal
to 5 has no vibrato. -/
theorem hasVibrato_depends_only_witness :
    ({ MIDIchannel.sample (fun _ => false) 2 0 0 with
        noteAftertouch := fun i => if i.val = 60 then 5 else 0 }.noteAftertouch
          ⟨60, by decide⟩ = 5) ∧
    hasVibrato { MIDIchannel.sample (fun _ => false) 2 0 0 with
        noteAftertouch := fun i => if i.val = 60 then 5 else 0 } = false :=
  ⟨rfl, hasVibrato_depends_only.2.2 _ rfl rfl rfl⟩

/-- C18 as stated fails in its last clause: a channel with `noteAfterTouchInUse` false
and `noteAftertouch[60]` nonzero has vibrato when its `vibrato` controller value
is 1. -/
theorem hasVibrato_flag_clear_counterexample :
    ({ MIDIchannel.sample (fun _ => false) 2 0 1 with
        noteAftertouch := fun i => if i.val = 60 then 5 else 0 }.noteAfterTouchInUse
          = false) ∧
    ({ MIDIchannel.sample (fun _ => false) 2 0 1 with
        noteAftertouch := fun i => if i.val = 60 then 5 else 0 }.noteAftertouch
          ⟨60, by decide⟩ ≠ 0) ∧
    hasVibrato { MIDIchannel.sample (fun _ => false) 2 0 1 with
        noteAftertouch := fun i => if i.val = 60 then 5 else 0 } = true :=
  ⟨rfl, by decide, rfl⟩

/-! ## Sample conversion and chip register writes -/

/-- C19: `opn2_cvtS16(x)` is `x` clamped to the signed 16-bit range: -32768 when
`x < -32768`, 32767 when `x > 32767` and `x` otherwise; it is idempotent and monotone
non-decreasing.  (Proved for every integer `x`, hence for every 32-bit one.) -/
theorem opn2_cvtS16_clamp (x y : Int) :
    (x < -32768 → opn2_cvtS16 x = -32768) ∧
    (x > 32767 → opn2_cvtS16 x = 32767) ∧
    (-32768 ≤ x → x ≤ 32767 → opn2_cvtS16 x = x) ∧
    opn2_cvtS16 (opn2_cvtS16 x) = opn2_cvtS16 x ∧
    (x ≤ y → opn2_cvtS16 x ≤ opn2_cvtS16 y) := by
  simp only [opn2_cvtS16, INT16_MIN, INT16_MAX]
  refine ⟨?_, ?_, ?_, ?_, ?_⟩
  · intro h
    split_ifs <;> omega
  · intro h
    split_ifs <;> omega
  · intro h1 h2
    split_ifs <;> omega
  · split_ifs <;> omega
  · intro h
    split_ifs <;> omega

/-- The hypotheses in `opn2_cvtS16_clamp` are satisfiable: 40000 is clamped to 32767,
-40000 to -32768, and the order of the two is kept. -/
theorem opn2_cvtS16_clamp_witness :
    opn2_cvtS16 40000 = 32767 ∧ opn2_cvtS16 (-40000) = -32768 ∧
    opn2_cvtS16 (-40000) ≤ opn2_cvtS16 40000 :=
  ⟨(opn2_cvtS16_clamp 40000 0).2.1 (by decide),
    (opn2_cvtS16_clamp (-40000) 40000).1 (by decide),
    (opn2_cvtS16_clamp (-40000) 40000).2.2.2.2 (by decide)⟩

/-- C20, as amended: for every `port` below `2^32`, `addr` and `data`,
`GXOPN2::writeReg(port, addr, data)` issues exactly two writes to the emulated chip, in
this order: first `addr` to bus address `(2*port) mod 2^32`, then `data` to bus address
`(2*port) mod 2^32 + 1`; it issues no other chip call and does not change
`m_framecount`.  The two bus addresses are `2*port` and `2*port + 1` whenever
`port < 2^31`. -/
theorem writeReg_spec (s : GXOPN2) (port addr data : Nat) (hport : port < 4294967296) :
    GXOPN2.writeReg s port addr data =
      { calls := s.calls ++
          [ChipCall.write (2 * port % 4294967296) addr,
           ChipCall.write (2 * port % 4294967296 + 1) data]
        m_framecount := s.m_framecount } ∧
    (port < 2147483648 →
      (GXOPN2.writeReg s port addr data).calls =
        s.calls ++ [ChipCall.write (2 * port) addr, ChipCall.write (2 * port + 1) data]) := by
  have h0 : (0 + port * 2 % 4294967296) % 4294967296 = 2 * port % 4294967296 := by omega
  have h1 : (1 + port * 2 % 4294967296) % 4294967296 = 2 * port % 4294967296 + 1 := by
    omega
  have hval : GXOPN2.writeReg s port addr data =
      { calls := s.calls ++
          [ChipCall.write (2 * port % 4294967296) addr,
           ChipCall.write (2 * port % 4294967296 + 1) data]
        m_framecount := s.m_framecount } := by
    simp only [GXOPN2.writeReg, h0, h1, List.append_assoc, List.singleton_append]
  refine ⟨hval, fun hlt => ?_⟩
  have h2 : 2 * port % 4294967296 = 2 * port := by omega
  rw [hval, h2]

/-- The hypotheses of `writeReg_spec` are satisfiable: writing 0xF0 to register 0x28 of
port 1 issues the writes (2, 0x28) and (3, 0xF0). -/
theorem writeReg_spec_witness :
    (1 < 4294967296 ∧ 1 < 2147483648) ∧
    (GXOPN2.writeReg { calls := [], m_framecount := 7 } 1 0x28 0xF0).calls =
      [] ++ [ChipCall.write (2 * 1) 0x28, ChipCall.write (2 * 1 + 1) 0xF0] :=
  ⟨by decide,
    (writeReg_spec { calls := [], m_framecount := 7 } 1 0x28 0xF0 (by decide)).2
      (by decide)⟩

/-- C20 as stated fails: for `port = 2147483648` the `uint32_t` expression `port * 2`
wraps to 0, so the writes go to the bus addresses 0 and 1, not to `2*port` and
`2*port + 1`. -/
theorem writeReg_wrap_counterexample :
    2147483648 < 4294967296 ∧
    (GXOPN2.writeReg { calls := [], m_framecount := 0 } 2147483648 0x28 0xF0).calls =
      [ChipCall.write 0 0x28, ChipCall.write 1 0xF0] ∧
    (GXOPN2.writeReg { calls := [], m_framecount := 0 } 2147483648 0x28 0xF0).calls ≠
      [ChipCall.write (2 * 2147483648) 0x28, ChipCall.write (2 * 2147483648 + 1) 0xF0] := by
  decide

/-! ## Physical claims: distinct voices, removal, lookup after creation -/

theorem phys_find_loop_sound (n : NoteInfo) (c : Nat) :
    ∀ d i, n.chip_channels_count - i = d →
      ∀ r, NoteInfo.phys_find_loop n c i = .ok r → NoteInfo.FirstClaimFrom n c i r := by
  intro d
  induction d with
  | zero =>
    intro i hd r hr
    rw [NoteInfo.phys_find_loop, if_neg (by omega)] at hr
    injection hr with hr
    subst hr
    exact fun k h1 h2 => absurd h2 (by omega)
  | succ d ih =>
    intro i hd r hr
    have hi : i < n.chip_channels_count := by omega
    rw [NoteInfo.phys_find_loop, if_pos hi] at hr
    by_cases hi2 : i < 2
    · rw [derefPhys_lt n i hi2] at hr
      by_cases heq : (n.chip_channels ⟨i, hi2⟩).chip_chan = c
      · simp only [heq, if_true] at hr
        injection hr with hr
        subst hr
        exact ⟨le_refl i, hi, ⟨hi2, heq⟩, fun k h1 h2 => absurd h2 (by omega)⟩
      · simp only [heq, if_false] at hr
        have hspec := ih (i + 1) (by omega) r hr
        have hfirst : ∀ k : Fin 2, i ≤ k.val → k.val < i + 1 →
            (n.chip_channels k).chip_chan ≠ c := by
          intro k h1 h2
          have hk : k = ⟨i, hi2⟩ := Fin.ext (by simp; omega)
          rw [hk]
          exact heq
        cases r with
        | none =>
          intro k h1 h2
          by_cases hk : k.val < i + 1
          · exact hfirst k h1 hk
          · exact hspec k (by omega) h2
        | some j =>
          obtain ⟨h1, h2, h3, h4⟩ := hspec
          refine ⟨by omega, h2, h3, ?_⟩
          intro k hk1 hk2
          by_cases hk : k.val < i + 1
          · exact hfirst k hk1 hk
          · exact h4 k (by omega) hk2
    · simp [derefPhys, hi2] at hr

theorem phys_find_sound (n : NoteInfo) (c : Nat) (r : Option Nat)
    (hr : NoteInfo.phys_find n c = .ok r) : NoteInfo.FirstClaimFrom n c 0 r :=
  phys_find_loop_sound n c _ 0 rfl r hr

theorem phys_erase_loop_bound (count : Nat) :
    ∀ d i (cc cc1 : Fin 2 → Phys), count - i = d → i ≤ 2 →
      NoteInfo.phys_erase_loop count cc i = .ok cc1 → count ≤ 2 := by
  intro d
  induction d with
  | zero =>
    intro i cc cc1 hd hi _
    omega
  | succ d ih =>
    intro i cc cc1 hd hi hloop
    have hlt : i < count := by omega
    rw [NoteInfo.phys_erase_loop, if_pos hlt] at hloop
    by_cases hi2 : i < 2
    · have hi1 : i - 1 < 2 := by omega
      rw [dif_pos hi2, dif_pos hi1] at hloop
      exact ih (i + 1) _ cc1 (by omega) (by omega) hloop
    · rw [dif_neg hi2] at hloop
      exact Except.noConfusion hloop

theorem phys_erase_loop_eq (count : Nat) (hc : count ≤ 2) (cc : Fin 2 → Phys) (i : Nat)
    (hi : 1 ≤ i) :
    NoteInfo.phys_erase_loop count cc i =
      .ok (if i < count then Function.update cc 0 (cc 1) else cc) := by
  by_cases hlt : i < count
  · have hi1 : i = 1 := by omega
    have hc2 : count = 2 := by omega
    subst hi1
    subst hc2
    rw [NoteInfo.phys_erase_loop, if_pos (by decide), dif_pos (by decide),
      dif_pos (by decide), NoteInfo.phys_erase_loop, if_neg (by decide), if_pos (by decide)]
    rfl
  · rw [NoteInfo.phys_erase_loop, if_neg hlt, if_neg hlt]

theorem phys_erase_at_eq (n : NoteInfo) (pos : Nat) (hn : n.chip_channels_count ≤ 2)
    (hpos : pos < n.chip_channels_count) :
    NoteInfo.phys_erase_at n pos =
      .ok { n with
            chip_channels :=
              if pos + 1 < n.chip_channels_count then
                Function.update n.chip_channels 0 (n.chip_channels 1)
              else n.chip_channels
            chip_channels_count := n.chip_channels_count - 1 } := by
  have hcount : (n.chip_channels_count + 4294967295) % 4294967296
      = n.chip_channels_count - 1 := by omega
  unfold NoteInfo.phys_erase_at
  rw [if_pos hpos, phys_erase_loop_eq _ hn _ (pos + 1) (by omega)]
  simp only [hcount]

theorem distinctVoices_of_count_le_one (n : NoteInfo) (h : n.chip_channels_count ≤ 1) :
    n.DistinctVoices := by
  intro i j hi hj _
  exact Fin.ext (by omega)

theorem phys_erase_distinct (n n1 : NoteInfo) (c : Nat) (hd : n.DistinctVoices)
    (he : NoteInfo.phys_erase n c = .ok n1) : n1.DistinctVoices := by
  unfold NoteInfo.phys_erase at he
  cases hfind : NoteInfo.phys_find n c with
  | error e => simp [hfind] at he
  | ok r =>
    have hspec := phys_find_sound n c r hfind
    cases r with
    | none =>
      simp only [hfind, Except.ok.injEq] at he
      rw [← he]
      exact hd
    | some pos =>
      simp only [hfind] at he
      obtain ⟨-, hpos, ⟨hpos2, -⟩, -⟩ := hspec
      have hn : n.chip_channels_count ≤ 2 := by
        unfold NoteInfo.phys_erase_at at he
        rw [if_pos hpos] at he
        cases hloop : NoteInfo.phys_erase_loop n.chip_channels_count n.chip_channels
            (pos + 1) with
        | error e => simp [hloop] at he
        | ok cc1 =>
          exact phys_erase_loop_bound _ _ (pos + 1) _ cc1 rfl (by omega) hloop
      rw [phys_erase_at_eq n pos hn hpos] at he
      injection he with he
      rw [← he]
      exact distinctVoices_of_count_le_one _ (by show n.chip_channels_count - 1 ≤ 1; omega)

theorem phys_find_or_create_eq (n : NoteInfo) (c : Nat) (n1 : NoteInfo) (r : Option Nat)
    (h : NoteInfo.phys_find_or_create n c = .ok (n1, r)) :
    (∃ i, NoteInfo.phys_find n c = .ok (some i) ∧ n1 = n ∧ r = some i) ∨
    (NoteInfo.phys_find n c = .ok none ∧ 2 ≤ n.chip_channels_count ∧ n1 = n ∧ r = none) ∨
    (∃ hlt : n.chip_channels_count < 2,
      NoteInfo.phys_find n c = .ok none ∧ r = some n.chip_channels_count ∧
      n1 = { n with
             chip_channels := Function.update n.chip_channels ⟨n.chip_channels_count, hlt⟩
               { n.chip_channels ⟨n.chip_channels_count, hlt⟩ with
                 chip_chan := c % 65536 }
             chip_channels_count := n.chip_channels_count + 1 }) := by
  unfold NoteInfo.phys_find_or_create at h
  cases hfind : NoteInfo.phys_find n c with
  | error e => simp [hfind] at h
  | ok r0 =>
    cases r0 with
    | some i =>
      simp only [hfind, Except.ok.injEq, Prod.mk.injEq] at h
      exact Or.inl ⟨i, rfl, h.1.symm, h.2.symm⟩
    | none =>
      simp only [hfind, MaxNumPhysItemCount, MaxNumPhysChans] at h
      by_cases hlt : n.chip_channels_count < 2
      · have hmod : (n.chip_channels_count + 1) % 4294967296 = n.chip_channels_count + 1 := by
          omega
        simp only [hlt, if_true, dif_pos, hmod, Except.ok.injEq, Prod.mk.injEq] at h
        exact Or.inr (Or.inr ⟨hlt, rfl, h.2.symm, h.1.symm⟩)
      · simp only [hlt, if_false, Except.ok.injEq, Prod.mk.injEq] at h
        exact Or.inr (Or.inl ⟨rfl, by omega, h.1.symm, h.2.symm⟩)

theorem phys_find_or_create_distinct (n n1 : NoteInfo) (c : Nat) (r : Option Nat)
    (hc : c ≤ 65535) (hd : n.DistinctVoices)
    (h : NoteInfo.phys_find_or_create n c = .ok (n1, r)) : n1.DistinctVoices := by
  rcases phys_find_or_create_eq n c n1 r h with
    ⟨i, -, h1, -⟩ | ⟨-, -, h1, -⟩ | ⟨hlt, hfind, -, h1⟩
  · rw [h1]
    exact hd
  · rw [h1]
    exact hd
  · have hnone := phys_find_sound n c none hfind
    have hcmod : c % 65536 = c := by omega
    rw [h1]
    intro i j hi hj heq
    simp only at hi hj heq
    by_cases hic : i = ⟨n.chip_channels_count, hlt⟩ <;>
      by_cases hjc : j = ⟨n.chip_channels_count, hlt⟩
    · rw [hic, hjc]
    · rw [hic, Function.update_same, Function.update_noteq hjc, hcmod] at heq
      have hjv : j.val ≠ n.chip_channels_count := fun e => hjc (Fin.ext e)
      exact absurd heq.symm (hnone j (Nat.zero_le _) (by omega))
    · rw [hjc, Function.update_same, Function.update_noteq hic, hcmod] at heq
      have hiv : i.val ≠ n.chip_channels_count := fun e => hic (Fin.ext e)
      exact absurd heq (hnone i (Nat.zero_le _) (by omega))
    · rw [Function.update_noteq hic, Function.update_noteq hjc] at heq
      have hiv : i.val ≠ n.chip_channels_count := fun e => hic (Fin.ext e)
      have hjv : j.val ≠ n.chip_channels_count := fun e => hjc (Fin.ext e)
      exact hd i j (by omega) (by omega) heq

/-- C11: the predicate "the first `chip_channels_count` claims name pairwise different
voices" is preserved by `phys_find_or_create(chip_chan)` for every `chip_chan <= 65535`
and by `phys_erase(chip_chan)`; both calls return whenever the record holds at most 2
claims. -/
theorem phys_distinct_voices_preserved (n : NoteInfo) (hd : n.DistinctVoices) :
    (∀ c, c ≤ 65535 → ∀ n1 r, n.phys_find_or_create c = .ok (n1, r) →
      n1.DistinctVoices) ∧
    (∀ c n1, n.phys_erase c = .ok n1 → n1.DistinctVoices) ∧
    (n.chip_channels_count ≤ 2 → ∀ c,
      (∃ n1 r, n.phys_find_or_create c = .ok (n1, r)) ∧
      ∃ n1, n.phys_erase c = .ok n1) := by
  refine ⟨?_, ?_, ?_⟩
  · exact fun c hc n1 r h => phys_find_or_create_distinct n n1 c r hc hd h
  · exact fun c n1 h => phys_erase_distinct n n1 c hd h
  · intro hn c
    obtain ⟨n1, r, h1, -⟩ := phys_find_or_create_spec n c hn
    obtain ⟨n2, h2, -⟩ := phys_erase_spec n c hn
    exact ⟨⟨n1, r, h1⟩, n2, h2⟩

/-- The hypothesis of `phys_distinct_voices_preserved` is satisfiable: a record with one
claim, on voice 10, asked for voice 11, then holds claims on two different voices. -/
theorem phys_distinct_voices_preserved_witness :
    (NoteInfo.sample 60 true (fun _ => Phys.sample 10) 1).DistinctVoices ∧
    ∃ n1 r,
      (NoteInfo.sample 60 true (fun _ => Phys.sample 10) 1).phys_find_or_create 11
        = .ok (n1, r) ∧
      n1.DistinctVoices := by
  have hd : (NoteInfo.sample 60 true (fun _ => Phys.sample 10) 1).DistinctVoices := by
    unfold NoteInfo.DistinctVoices
    decide
  have hall := phys_distinct_voices_preserved
    (NoteInfo.sample 60 true (fun _ => Phys.sample 10) 1) hd
  obtain ⟨n1, r, h1⟩ := (hall.2.2 (by decide) 11).1
  exact ⟨hd, n1, r, h1, hall.1 11 (by decide) n1 r h1⟩

theorem claims_of_firstClaim (n : NoteInfo) (c pos : Nat)
    (h : NoteInfo.FirstClaimFrom n c 0 (some pos)) : n.claims c := by
  obtain ⟨-, h2, ⟨h3, h3c⟩, -⟩ := h
  exact ⟨⟨pos, h3⟩, h2, h3c⟩

/-- C13: for a record with `chip_channels_count <= 2`: if no claim among the first
`chip_channels_count` names `chip_chan`, `phys_erase(chip_chan)` leaves the record
unchanged; otherwise it removes the first claim naming `chip_chan`:
`chip_channels_count` decreases by exactly 1, the list of claims is the old one without
the entry at that position (the remaining claims keep contents and order), no other
member changes, and the assertion `pos < chip_channels_count` in `phys_erase_at`
holds. -/
theorem phys_erase_removes_first (n : NoteInfo) (c : Nat)
    (hn : n.chip_channels_count ≤ 2) :
    (¬ n.claims c → n.phys_erase c = .ok n) ∧
    (n.claims c →
      ∃ pos n1, n.phys_find c = .ok (some pos) ∧
        NoteInfo.FirstClaimFrom n c 0 (some pos) ∧
        pos < n.chip_channels_count ∧
        n.phys_erase_at pos = .ok n1 ∧
        n.phys_erase c = .ok n1 ∧
        n1.chip_channels_count + 1 = n.chip_channels_count ∧
        n1.claimList = n.claimList.eraseIdx pos ∧
        n1 = { n with
               chip_channels := n1.chip_channels
               chip_channels_count := n1.chip_channels_count }) := by
  obtain ⟨r, hfind, hspec⟩ := phys_find_spec n c hn
  have hiff := phys_find_none_iff n c r hspec
  constructor
  · intro hncl
    have hr := hiff.mpr hncl
    subst hr
    simp [NoteInfo.phys_erase, hfind]
  · intro hcl
    cases r with
    | none => exact absurd hcl (hiff.mp rfl)
    | some pos =>
      have hpos : pos < n.chip_channels_count := hspec.2.1
      have hat := phys_erase_at_eq n pos hn hpos
      refine ⟨pos, _, hfind, hspec, hpos, hat, ?_, ?_, ?_, rfl⟩
      · simp [NoteInfo.phys_erase, hfind, hat]
      · show n.chip_channels_count - 1 + 1 = n.chip_channels_count
        omega
      · have hof : ∀ f : Fin 2 → Phys, List.ofFn f = [f 0, f 1] := fun _ => rfl
        simp only [NoteInfo.claimList, hof]
        have hcases : (n.chip_channels_count = 1 ∧ pos = 0) ∨
            (n.chip_channels_count = 2 ∧ pos = 0) ∨
            (n.chip_channels_count = 2 ∧ pos = 1) := by omega
        rcases hcases with ⟨h1, h2⟩ | ⟨h1, h2⟩ | ⟨h1, h2⟩ <;>
          simp [h1, h2]

/-- The hypothesis of `phys_erase_removes_first` is satisfiable: erasing voice 10 from a
record with claims on the voices 10 and 11 leaves the single claim on voice 11. -/
theorem phys_erase_removes_first_witness :
    (NoteInfo.sample 60 true (fun i => Phys.sample (10 + i.val)) 2).chip_channels_count
      ≤ 2 ∧
    ∃ n1,
      (NoteInfo.sample 60 true (fun i => Phys.sample (10 + i.val)) 2).phys_erase 10
        = .ok n1 ∧
      n1.claimList = [Phys.sample 11] := by
  have hcl : (NoteInfo.sample 60 true (fun i => Phys.sample (10 + i.val)) 2).claims 10 :=
    ⟨0, by decide, rfl⟩
  obtain ⟨pos, n1, hfind, -, -, -, herase, -, hlist, -⟩ :=
    (phys_erase_removes_first
      (NoteInfo.sample 60 true (fun i => Phys.sample (10 + i.val)) 2) 10 (by decide)).2 hcl
  have hpos : pos = 0 := by
    have h0 : (NoteInfo.sample 60 true (fun i => Phys.sample (10 + i.val)) 2).phys_find 10
        = .ok (some 0) := by
      rw [NoteInfo.phys_find, NoteInfo.phys_find_loop]
      rfl
    rw [h0] at hfind
    injection hfind with hfind
    injection hfind with hfind
    exact hfind.symm
  subst hpos
  exact ⟨by decide, n1, herase, hlist⟩

/-- C14, as amended: for every `chip_chan <= 65535` and every record with fewer than 2
claims, `phys_find_or_create(chip_chan)` returns an entry; `phys_find(chip_chan)` on the
resulting record returns that same entry, and a second `phys_find_or_create(chip_chan)`
returns it again and leaves the record, `chip_channels_count` included, as it is. -/
theorem phys_find_after_create (n : NoteInfo) (c : Nat)
    (hn : n.chip_channels_count < 2) (hc : c ≤ 65535) :
    ∃ n1 i, n.phys_find_or_create c = .ok (n1, some i) ∧
      n1.phys_find c = .ok (some i) ∧
      n1.phys_find_or_create c = .ok (n1, some i) := by
  obtain ⟨n1, r, hfc, hcount, hnull, -⟩ := phys_find_or_create_spec n c (by omega)
  have hfound : ∀ i, NoteInfo.phys_find n1 c = .ok (some i) →
      NoteInfo.phys_find_or_create n1 c = .ok (n1, some i) := by
    intro i hi
    simp [NoteInfo.phys_find_or_create, hi]
  rcases phys_find_or_create_eq n c n1 r hfc with
    ⟨i, hfind, h1, hr⟩ | ⟨-, hge, -, -⟩ | ⟨hlt, hfind, hr, h1⟩
  · subst hr
    have hfind1 : NoteInfo.phys_find n1 c = .ok (some i) := by rw [h1]; exact hfind
    exact ⟨n1, i, hfc, hfind1, hfound i hfind1⟩
  · omega
  · subst hr
    have hnone := phys_find_sound n c none hfind
    have hcmod : c % 65536 = c := by omega
    have hnew : (n1.chip_channels ⟨n.chip_channels_count, hlt⟩).chip_chan = c := by
      rw [h1]
      simp [hcmod]
    have hcount1 : n1.chip_channels_count = n.chip_channels_count + 1 := by rw [h1]
    have hold : ∀ k : Fin 2, k.val < n.chip_channels_count →
        (n1.chip_channels k).chip_chan ≠ c := by
      intro k hk
      have hne : k ≠ ⟨n.chip_channels_count, hlt⟩ := fun e => by
        rw [e] at hk
        exact absurd hk (Nat.lt_irrefl _)
      rw [h1]
      simp only [Function.update_noteq hne]
      exact hnone k (Nat.zero_le _) hk
    obtain ⟨r1, hfind1, hspec1⟩ := phys_find_spec n1 c hcount
    have hr1 : r1 = some n.chip_channels_count := by
      cases r1 with
      | none =>
        exact absurd hnew (hspec1 ⟨n.chip_channels_count, hlt⟩ (Nat.zero_le _)
          (by rw [hcount1]; exact Nat.lt_succ_self _))
      | some j =>
        obtain ⟨-, hj, ⟨hj2, hjc⟩, -⟩ := hspec1
        by_cases hjlt : j < n.chip_channels_count
        · exact absurd hjc (hold ⟨j, hj2⟩ hjlt)
        · have hje : j = n.chip_channels_count := by omega
          rw [hje]
    rw [hr1] at hfind1
    exact ⟨n1, _, hfc, hfind1, hfound _ hfind1⟩

/-- The hypotheses of `phys_find_after_create` are satisfiable: a record without claims
and the voice 65535. -/
theorem phys_find_after_create_witness :
    ((NoteInfo.sample 60 true (fun _ => Phys.sample 7) 0).chip_channels_count < 2 ∧
      65535 ≤ 65535) ∧
    ∃ n1 i,
      (NoteInfo.sample 60 true (fun _ => Phys.sample 7) 0).phys_find_or_create 65535
        = .ok (n1, some i) ∧
      n1.phys_find 65535 = .ok (some i) ∧
      n1.phys_find_or_create 65535 = .ok (n1, some i) :=
  ⟨by decide,
    phys_find_after_create (NoteInfo.sample 60 true (fun _ => Phys.sample 7) 0) 65535
      (by decide) (by decide)⟩

/-- C14 as stated fails: 65536 is a 32-bit `chip_chan`, the record holds no claim;
`phys_find_or_create(65536)` creates entry 0 and stores `(uint16_t)65536`, that is 0, in
it; `phys_find(65536)` on the result is null, and a second `phys_find_or_create(65536)`
creates entry 1 and raises `chip_channels_count` from 1 to 2. -/
theorem phys_find_after_create_counterexample :
    65536 < 4294967296 ∧
    (NoteInfo.sample 60 true (fun _ => Phys.sample 7) 0).chip_channels_count < 2 ∧
    ∃ n1 n2,
      (NoteInfo.sample 60 true (fun _ => Phys.sample 7) 0).phys_find_or_create 65536
        = .ok (n1, some 0) ∧
      (n1.chip_channels 0).chip_chan = 0 ∧
      n1.chip_channels_count = 1 ∧
      n1.phys_find 65536 = .ok none ∧
      n1.phys_find_or_create 65536 = .ok (n2, some 1) ∧
      n2.chip_channels_count = 2 := by
  have key : ∀ n1 : NoteInfo, n1.chip_channels_count = 1 →
      (n1.chip_channels 0).chip_chan = 0 →
      n1.phys_find 65536 = .ok none ∧
      ∃ n2, n1.phys_find_or_create 65536 = .ok (n2, some 1) ∧
        n2.chip_channels_count = 2 := by
    intro n1 hc1 hv
    obtain ⟨r, hfind, hspec⟩ := phys_find_spec n1 65536 (by omega)
    have hr : r = none := by
      cases r with
      | none => rfl
      | some j =>
        obtain ⟨-, hj, ⟨hj2, hjc⟩, -⟩ := hspec
        have hj0 : (⟨j, hj2⟩ : Fin 2) = 0 := Fin.ext (by simp; omega)
        rw [hj0, hv] at hjc
        exact absurd hjc (by decide)
    subst hr
    refine ⟨hfind, ?_⟩
    obtain ⟨n2, r2, h2, -, -, -⟩ := phys_find_or_create_spec n1 65536 (by omega)
    rcases phys_find_or_create_eq n1 65536 n2 r2 h2 with
      ⟨i, hf, -, -⟩ | ⟨-, hge, -, -⟩ | ⟨hlt, -, hr2, hn2⟩
    · rw [hfind] at hf
      injection hf with hf
      exact Option.noConfusion hf
    · omega
    · have hr1 : r2 = some 1 := by rw [hr2, hc1]
      rw [hr1] at h2
      refine ⟨n2, h2, ?_⟩
      rw [hn2]
      show n1.chip_channels_count + 1 = 2
      omega
  have h0 : (NoteInfo.sample 60 true (fun _ => Phys.sample 7) 0).phys_find 65536
      = .ok none := by
    rw [NoteInfo.phys_find, NoteInfo.phys_find_loop]
    rfl
  have h1 : (NoteInfo.sample 60 true (fun _ => Phys.sample 7) 0).phys_find_or_create 65536
      = .ok ({ NoteInfo.sample 60 true (fun _ => Phys.sample 7) 0 with
               chip_channels := Function.update (fun _ => Phys.sample 7) 0
                 { Phys.sample 7 with chip_chan := 0 }
               chip_channels_count := 1 }, some 0) := by
    unfold NoteInfo.phys_find_or_create
    rw [h0]
    rfl
  obtain ⟨hfind1, n2, hfc2, hcount2⟩ :=
    key { NoteInfo.sample 60 true (fun _ => Phys.sample 7) 0 with
          chip_channels := Function.update (fun _ => Phys.sample 7) 0
            { Phys.sample 7 with chip_chan := 0 }
          chip_channels_count := 1 } rfl rfl
  exact ⟨by decide, by decide, _, n2, h1, rfl, rfl, hfind1, hfc2, hcount2⟩

/-! ## Voice users: comparison of locations -/

/-- C21: `OpnChannel::Location` equality compares exactly the back-reference pair:
`a == b` holds if and only if `a.MidCh == b.MidCh` and `a.note == b.note`, whatever the
padding bytes of the two are; `a != b` is the negation of `a == b`; and `==` is
reflexive, symmetric and transitive. -/
theorem location_eq_spec (a b c : OpnChannel.Location) :
    (a.operator_eq b = true ↔ a.MidCh = b.MidCh ∧ a.note = b.note) ∧
    (∀ p q : Nat,
      OpnChannel.Location.operator_eq { a with ____padding := p } { b with ____padding := q }
        = a.operator_eq b) ∧
    a.operator_ne b = !(a.operator_eq b) ∧
    a.operator_eq a = true ∧
    a.operator_eq b = b.operator_eq a ∧
    (a.operator_eq b = true → b.operator_eq c = true → a.operator_eq c = true) := by
  refine ⟨?_, fun _ _ => rfl, rfl, ?_, ?_, ?_⟩
  · simp [OpnChannel.Location.operator_eq]
  · simp [OpnChannel.Location.operator_eq]
  · simp only [OpnChannel.Location.operator_eq, eq_comm]
  · simp only [OpnChannel.Location.operator_eq, Bool.and_eq_true, decide_eq_true_eq]
    rintro ⟨h1, h2⟩ ⟨h3, h4⟩
    exact ⟨h1.trans h3, h2.trans h4⟩

/-- The hypotheses in `location_eq_spec` are satisfiable: two locations for channel 3,
note 60, that differ in their padding byte compare equal, and equality passes on to a
third such location. -/
theorem location_eq_spec_witness :
    ({ MidCh := 3, note := 60, ____padding := 0 } : OpnChannel.Location) ≠
      { MidCh := 3, note := 60, ____padding := 255 } ∧
    OpnChannel.Location.operator_eq { MidCh := 3, note := 60, ____padding := 0 }
      { MidCh := 3, note := 60, ____padding := 7 } = true :=
  ⟨by decide,
    (location_eq_spec { MidCh := 3, note := 60, ____padding := 0 }
      { MidCh := 3, note := 60, ____padding := 255 }
      { MidCh := 3, note := 60, ____padding := 7 }).2.2.2.2.2 rfl rfl⟩

end OPNMIDI
